import Mathlib

/-!
Shallow embedding of the measurement-to-decision core of the
Cloudflare-Preference-IP repository (src/core/analyzer.py, src/core/evaluator.py,
src/ip_validator.py, src/ip_tester.py, src/http_tester.py).

Modelling conventions:
* Python floats are modelled as rationals (`ℚ`); all the arithmetic the
  claims touch (EMA folds with weights 0.7/0.3, threshold comparisons,
  averages) is exact rational arithmetic.
* `float('inf')` defaults that come from `dict.get(key, float('inf'))` are
  modelled as `Option ℚ` with `none` standing for the absent key (an absent
  key behaves as an infinite value in every comparison the source makes).
* Python dictionaries with string keys drawn from a fixed enumeration are
  modelled as functions out of that enumeration into `Option` (absent key =
  `none`); score dictionaries keyed by IP strings are modelled as
  association lists with Python's insertion-order/overwrite semantics
  (`dinsert` below).
* Exceptions (`KeyError` on a direct `d[k]` access, `ZeroDivisionError`,
  `AttributeError` on `None`) are modelled with the `Except Unit` monad at
  the places the cited code can raise; a surrounding `try/except` is the
  `match` on the resulting value.
* `datetime` timestamps are modelled at day granularity as integers;
  `(now - last_update).days` becomes integer subtraction.
* Network and randomness (`random.choice`, `random.sample`, probe results)
  are modelled as explicit parameters: an oracle provides the outcome of
  every probe, and the code under verification is everything the source
  does with those outcomes.
-/

namespace CFIP

/-- DNS routing lines, the five keys used throughout the repository
(`TELECOM/UNICOM/MOBILE/OVERSEAS/DEFAULT`). -/
inductive Line
  | TELECOM
  | UNICOM
  | MOBILE
  | OVERSEAS
  | DEFAULT
deriving DecidableEq, Repr

/-- The four real ISP lines that measurement nodes exist for (the keys of
`NODE_IDS` in ip_tester.py / ip_validator.py, and the keys the tester ever
puts into a result's `tests` dict). -/
inductive ISP
  | TELECOM
  | UNICOM
  | MOBILE
  | OVERSEAS
deriving DecidableEq, Repr

/-- Embedding of the tester's `tests` keys into the five-line enumeration. -/
def ISP.toLine : ISP → Line
  | .TELECOM => Line.TELECOM
  | .UNICOM => Line.UNICOM
  | .MOBILE => Line.MOBILE
  | .OVERSEAS => Line.OVERSEAS

/-- HTTP measurement origins (the keys of `HTTPTester.dns_servers`). -/
inductive Origin
  | ALIYUN
  | BAIDU
  | GOOGLE
deriving DecidableEq, Repr

/-- Python-dict insertion with overwrite semantics: if the key is present
its value is replaced in place, otherwise the pair is appended.  This is
exactly how `d[k] = v` behaves on a Python dict viewed as an ordered
association list. -/
def dinsert {α β : Type} [DecidableEq α] (k : α) (v : β) :
    List (α × β) → List (α × β)
  | [] => [(k, v)]
  | p :: rest => if p.1 = k then (k, v) :: rest else p :: dinsert k v rest

/-! ### History store (analyzer.py): persisted per-IP records -/

/-- The `dns_performance` sub-record maintained by `save_history`. -/
structure DnsPerf where
  success_count : ℕ
  total_count : ℕ
  average_ttfb : ℚ
  average_total_time : ℚ
deriving DecidableEq, Repr

/-- Persisted per-IP history record (`results/ip_history.json`), as created
and maintained by `IPHistoryAnalyzer.save_history`.  Latency EMAs are keyed
by line, HTTP EMAs by origin; an absent dict key is `none`.  `last_update`
is a timestamp at day granularity. -/
structure HistoryRecord where
  latency : Line → Option ℚ
  ttfb : Origin → Option ℚ
  total_time : Origin → Option ℚ
  dns_performance : Origin → Option DnsPerf
  update_count : ℕ
  last_update : ℤ

/-- Latency tier used by `_calculate_historical_score` (analyzer.py lines
150-159). -/
def latencyTier (latency : ℚ) : ℚ :=
  if latency ≤ 200 then 100
  else if latency ≤ 300 then 80
  else if latency ≤ 400 then 60
  else max 0 (100 - (latency - 400) / 10)

/-- Per-origin HTTP tier used by `_calculate_historical_score` (analyzer.py
lines 171-176). -/
def dnsTier (ttfb total_time : ℚ) : ℚ :=
  if ttfb ≤ 1/10 ∧ total_time ≤ 1/2 then 100
  else if ttfb ≤ 2/10 ∧ total_time ≤ 1 then 80
  else 60

/-- Embedding of `IPHistoryAnalyzer._calculate_historical_score(ip, isp)`
(analyzer.py lines 131-220).  `analysisDays` is `self.analysis_days`,
`now` the current day.  The source's catch-all `except: return 0` has no
remaining trigger once records are well-typed, so the function is total. -/
def historicalScore (analysisDays : ℤ) (now : ℤ)
    (history : String → Option HistoryRecord) (ip : String) (isp : Line) : ℚ :=
  match history ip with
  | none => 0
  | some record =>
    let daysOld : ℤ := now - record.last_update
    if analysisDays < daysOld then 0
    else
      let latencyScore : ℚ :=
        match record.latency isp with
        | none => 0
        | some l => latencyTier l
      let httpScores : List ℚ :=
        [Origin.ALIYUN, Origin.BAIDU, Origin.GOOGLE].filterMap fun o =>
          match record.ttfb o, record.total_time o with
          | some t, some tt => some (dnsTier t tt)
          | _, _ => none
      let httpScore : ℚ :=
        if httpScores = [] then 0 else httpScores.sum / httpScores.length
      let stabilityBase : ℚ :=
        if 7 < daysOld then min 50 (record.update_count * 2)
        else min 100 (record.update_count * 4)
      let consecutive : Bool :=
        [Line.TELECOM, Line.UNICOM, Line.MOBILE].all fun l =>
          match record.latency l with
          | some v => decide (v ≤ 400)
          | none => true
      let stabilityScore : ℚ :=
        if 3 ≤ record.update_count ∧ consecutive then
          min 100 (stabilityBase + 10)
        else stabilityBase
      latencyScore * (4/10) + httpScore * (4/10) + stabilityScore * (2/10)

/-! ### Selection engine (analyzer.py `analyze_and_update`) -/

/-- The `http_test` sub-dict of one entry of `new_test_results` as read by
`analyze_and_update` (analyzer.py lines 81-85); `ttfb`/`total_time` default
to `float('inf')` when absent (`none`). -/
structure NewHttpTest where
  available : Bool
  ttfb : Option ℚ
  total_time : Option ℚ
deriving DecidableEq, Repr

/-- One entry of `new_test_results[isp]` as read by `analyze_and_update`.
`ip` and `latency` are accessed with a direct `result[...]`, so an absent
key (modelled `none`) raises `KeyError`. -/
structure NewResult where
  ip : Option String
  latency : Option ℚ
  http_test : Option NewHttpTest
deriving DecidableEq, Repr

/-- Scoring of one new test result inside `analyze_and_update` (analyzer.py
lines 75-88): `latency_score = 1000/latency if latency > 0 else 0`,
`http_score = (1000/ttfb + 1000/total_time)/2` when the HTTP probe is
available and both times are finite, and `score = latency_score*0.7 +
http_score*0.3`.  A missing `ip`/`latency` key raises `KeyError`; a zero
`ttfb` or `total_time` raises `ZeroDivisionError` (a rational `0` passes the
`< float('inf')` test but the division raises). -/
def scoreNewResult (r : NewResult) : Except Unit (String × ℚ) := do
  let some ip := r.ip | throw ()
  let some latency := r.latency | throw ()
  let latencyScore : ℚ := if 0 < latency then 1000 / latency else 0
  let httpScore : ℚ ←
    match r.http_test with
    | some ht =>
      if ht.available then
        match ht.ttfb, ht.total_time with
        | some t, some tt =>
          if t = 0 ∨ tt = 0 then throw ()
          else pure ((1000 / t + 1000 / tt) / 2)
        | _, _ => pure 0
      else pure 0
    | none => pure 0
  pure (ip, latencyScore * (7/10) + httpScore * (3/10))

/-- Configuration and state the analyzer reads: `self.config['dns']
['max_records_per_line']` (with `.get(isp, 1)` semantics), the analysis
window, the loaded history, and the current day. -/
structure AnalyzerEnv where
  maxRecordsPerLine : Line → Option ℕ
  analysisDays : ℤ
  history : String → Option HistoryRecord
  now : ℤ

/-- The per-line score dictionary `{**current_ip_scores, **new_ip_scores}`
built by `analyze_and_update` (analyzer.py lines 63-91): historical scores
of the currently published IPs (kept only when `score > 0`), then the
freshly computed scores of the new test results (kept only when
`score > 0`), the latter overriding the former on a shared IP. -/
def lineScores (env : AnalyzerEnv) (currentIps : Line → List String)
    (newResults : Line → List NewResult) (isp : Line) :
    Except Unit (List (String × ℚ)) := do
  let currentScores := (currentIps isp).foldl
    (fun acc ip =>
      let s := historicalScore env.analysisDays env.now env.history ip isp
      if 0 < s then dinsert ip s acc else acc) []
  let newScores ← (newResults isp).foldlM
    (fun acc r => do
      let (ip, s) ← scoreNewResult r
      pure (if 0 < s then dinsert ip s acc else acc))
    ([] : List (String × ℚ))
  pure (newScores.foldl (fun acc p => dinsert p.1 p.2 acc) currentScores)

/-- The sort order of `sorted(all_scores.items(), key=lambda x: (-x[1],
x[0]))`: score descending, then IP string ascending.  Python compares the
IP strings by code points, which is exactly the lexicographic order on
their character lists (`String.data`). -/
def scoreOrder (a b : String × ℚ) : Prop :=
  b.2 < a.2 ∨ (a.2 = b.2 ∧ a.1.data ≤ b.1.data)

instance : DecidableRel scoreOrder := fun a b => by
  unfold scoreOrder; infer_instance

instance : IsTotal (String × ℚ) scoreOrder where
  total a b := by
    rcases lt_trichotomy a.2 b.2 with h | h | h
    · exact Or.inr (Or.inl h)
    · rcases le_total a.1.data b.1.data with h2 | h2
      · exact Or.inl (Or.inr ⟨h, h2⟩)
      · exact Or.inr (Or.inr ⟨h.symm, h2⟩)
    · exact Or.inl (Or.inl h)

instance : IsTrans (String × ℚ) scoreOrder where
  trans a b c hab hbc := by
    rcases hab with h1 | ⟨he1, hl1⟩
    · rcases hbc with h2 | ⟨he2, _⟩
      · exact Or.inl (h2.trans h1)
      · exact Or.inl (he2 ▸ h1)
    · rcases hbc with h2 | ⟨he2, hl2⟩
      · exact Or.inl (he1 ▸ h2)
      · exact Or.inr ⟨he1.trans he2, hl1.trans hl2⟩

/-- Ranking and truncation step of `analyze_and_update` (analyzer.py lines
90-99): sort the merged score dict by `(-score, ip)` and keep the first
`max_records` IPs.  Python's `sorted` is a stable sort; `insertionSort` is
a stable sort with the same comparator semantics, and on the score maps the
code produces (distinct IP keys) the comparator admits no ties, so the
result is the unique sorted ordering. -/
def selectLine (scores : List (String × ℚ)) (maxR : ℕ) : List String :=
  ((List.insertionSort scoreOrder scores).take maxR).map Prod.fst

/-- One iteration of the per-line loop of `analyze_and_update`: build the
merged score dict for the line and take the top
`max_records_per_line.get(isp, 1)`. -/
def lineSelect (env : AnalyzerEnv) (currentIps : Line → List String)
    (newResults : Line → List NewResult) (isp : Line) :
    Except Unit (List String) := do
  let scores ← lineScores env currentIps newResults isp
  pure (selectLine scores ((env.maxRecordsPerLine isp).getD 1))

/-- The body of the `try:` in `analyze_and_update` (analyzer.py lines
54-105): the per-line loop over the five lines.  Any exception anywhere
aborts the whole computation. -/
def analyzeCore (env : AnalyzerEnv) (currentIps : Line → List String)
    (newResults : Line → List NewResult) :
    Except Unit (Line → List String) := do
  let t ← lineSelect env currentIps newResults Line.TELECOM
  let u ← lineSelect env currentIps newResults Line.UNICOM
  let m ← lineSelect env currentIps newResults Line.MOBILE
  let o ← lineSelect env currentIps newResults Line.OVERSEAS
  let d ← lineSelect env currentIps newResults Line.DEFAULT
  pure fun isp =>
    match isp with
    | Line.TELECOM => t
    | Line.UNICOM => u
    | Line.MOBILE => m
    | Line.OVERSEAS => o
    | Line.DEFAULT => d

/-- Embedding of `IPHistoryAnalyzer.analyze_and_update` (analyzer.py lines
52-109): run the per-line selection; on any exception the `except` branch
returns `current_ips` unchanged. -/
def analyze_and_update (env : AnalyzerEnv) (currentIps : Line → List String)
    (newResults : Line → List NewResult) : Line → List String :=
  match analyzeCore env currentIps newResults with
  | .ok r => r
  | .error _ => currentIps

/-! ### History store updates (analyzer.py `save_history`) -/

/-- One origin's entry in `http_test['results']` (produced by
`HTTPTester.test_single_ip_with_dns`; read by `save_history` and the
evaluator with `.get(..., 0)` / `.get(..., inf)` defaults, so the time
fields stay optional). -/
structure DnsResult where
  available : Bool
  ttfb : Option ℚ
  total_time : Option ℚ
deriving DecidableEq, Repr

/-- The `http_test` dict attached to a tester result
(`HTTPTester.test_ip` output): overall availability plus the per-origin
results. -/
structure HttpTest where
  available : Bool
  results : Origin → Option DnsResult

/-- One line's aggregate entry in a tester result's `tests` dict.  All
fields the downstream readers access via `.get` are optional; `available`
is always present.  (`IPTester.test_ip` itself always stores `latency`,
`loss` and `node_id` and never `stability`/`latency_variance`; the extra
options cover the `.get(..., default)` reads the evaluator performs.) -/
structure PingTest where
  available : Bool
  latency : Option ℚ
  loss : Option ℚ
  stability : Option ℚ
  latency_variance : Option ℚ
  node_id : Option String
deriving DecidableEq, Repr

/-- The `status` field of a tester result. -/
inductive Status
  | ok
  | error
deriving DecidableEq, Repr

/-- A full per-IP tester result (`IPTester.test_ip` / `test_batch` output),
the element type of the list consumed by `save_history` and
`evaluate_batch`. -/
structure TestRes where
  ip : String
  status : Status
  tests : List (ISP × PingTest)
  http_test : Option HttpTest

/-- The EMA fold of `save_history`: `new*0.7 + old*0.3` against a stored
value, the bare new value on first observation (analyzer.py lines
393-401 and 408-426). -/
def emaFold (newV : ℚ) (oldV : Option ℚ) : ℚ :=
  match oldV with
  | some o => newV * (7/10) + o * (3/10)
  | none => newV

/-- The freshly initialised history record `save_history` creates for an
unseen IP (analyzer.py lines 380-390). -/
def initRecord (now : ℤ) : HistoryRecord where
  latency := fun _ => none
  ttfb := fun _ => none
  total_time := fun _ => none
  dns_performance := fun _ => none
  update_count := 0
  last_update := now

/-- One step of the latency-update loop of `save_history` (analyzer.py
lines 393-401): an available test folds its latency into the stored EMA at
its line's key.  The source reads `test['latency']` directly; the key is
always present in tester output (both the success and the `_failed_result`
dicts carry it), which the optional field models by skipping the
unreachable `none`. -/
def latStep (r : HistoryRecord) (p : ISP × PingTest) : HistoryRecord :=
  if p.2.available then
    match p.2.latency with
    | some lv =>
      let newLat := Function.update r.latency p.1.toLine (some (emaFold lv (r.latency p.1.toLine)))
      { r with latency := newLat }
    | none => r
  else r

/-- The latency-update loop of `save_history` (analyzer.py lines 392-401). -/
def updateLatencies (tests : List (ISP × PingTest)) (r : HistoryRecord) :
    HistoryRecord :=
  tests.foldl latStep r

/-- The per-origin HTTP-update body of `save_history` (analyzer.py lines
405-448): for an origin whose result is available, fold `ttfb` and
`total_time` into the EMAs when strictly positive (`.get('ttfb', 0)` /
`if ttfb > 0`), and maintain the `dns_performance` counters (note the
source reverses the EMA weights there: `old*0.7 + new*0.3`). -/
def updateHttpOrigin (ht : HttpTest) (o : Origin) (r : HistoryRecord) :
    HistoryRecord :=
  match ht.results o with
  | some dns =>
    if dns.available then
      let t := dns.ttfb.getD 0
      let r1 :=
        if 0 < t then
          { r with ttfb := Function.update r.ttfb o (some (emaFold t (r.ttfb o))) }
        else r
      let tt := dns.total_time.getD 0
      let r2 :=
        if 0 < tt then
          { r1 with total_time :=
              Function.update r1.total_time o (some (emaFold tt (r1.total_time o))) }
        else r1
      let perf := (r2.dns_performance o).getD ⟨0, 0, 0, 0⟩
      let perf2 : DnsPerf :=
        { success_count := perf.success_count + 1
          total_count := perf.total_count + 1
          average_ttfb := perf.average_ttfb * (7/10) + t * (3/10)
          average_total_time := perf.average_total_time * (7/10) + tt * (3/10) }
      let newPerf := Function.update r2.dns_performance o (some perf2)
      { r2 with dns_performance := newPerf }
    else r
  | none => r

/-- The HTTP-update loop of `save_history` (analyzer.py lines 404-448):
when the overall HTTP test is present and available, fold each of the three
origins in turn (`for dns_type in ['ALIYUN', 'BAIDU', 'GOOGLE']`). -/
def saveHttpFold (http : Option HttpTest) (r : HistoryRecord) : HistoryRecord :=
  match http with
  | some ht =>
    if ht.available then
      [Origin.ALIYUN, Origin.BAIDU, Origin.GOOGLE].foldl
        (fun r o => updateHttpOrigin ht o r) r
    else r
  | none => r

/-- The record stored for one `ok` result by `save_history`: initialise if
absent, fold latencies, fold HTTP data, increment `update_count` by one and
stamp `last_update` (analyzer.py lines 379-452). -/
def saveRecord (now : ℤ) (hist : String → Option HistoryRecord)
    (res : TestRes) : HistoryRecord :=
  let r0 := (hist res.ip).getD (initRecord now)
  let r2 := saveHttpFold res.http_test (updateLatencies res.tests r0)
  { r2 with update_count := r2.update_count + 1, last_update := now }

/-- Processing of a single result inside `save_history` (analyzer.py lines
375-452): skip non-`ok` results; otherwise store the updated record under
the result's IP. -/
def saveOne (now : ℤ) (hist : String → Option HistoryRecord) (res : TestRes) :
    String → Option HistoryRecord :=
  if res.status ≠ Status.ok then hist
  else Function.update hist res.ip (some (saveRecord now hist res))

/-- Embedding of `IPHistoryAnalyzer.save_history(test_results)` (analyzer.py
lines 365-459): fold every cycle result into the persisted history.  The
single `timestamp = datetime.now().isoformat()` taken at entry is the `now`
argument. -/
def saveHistory (now : ℤ) (results : List TestRes)
    (hist : String → Option HistoryRecord) : String → Option HistoryRecord :=
  results.foldl (saveOne now) hist

/-! ### Evaluator (evaluator.py `IPEvaluator`) -/

/-- The evaluator configuration read from `config['evaluation']`
(evaluator.py lines 17-31): the five per-line ping latency thresholds and
the two HTTP thresholds.  The production config provides positive finite
values (defaults 100/100/100/150/150 and 200/1000). -/
structure EvalConfig where
  latency_thresholds : Line → ℚ
  http_ttfb_threshold : ℚ
  http_total_time_threshold : ℚ

/-- The fixed ISP weights of `IPEvaluator.isp_weights` (evaluator.py lines
47-52). -/
def ispWeight : ISP → ℚ
  | .TELECOM => 35/100
  | .UNICOM => 25/100
  | .MOBILE => 25/100
  | .OVERSEAS => 15/100

/-- The score `max(0, 100 - (v / threshold) * 100)` used for HTTP ttfb and
total time (evaluator.py lines 225-229); an absent key defaults to
`float('inf')`, which scores 0. -/
def tierScore100 (v : Option ℚ) (threshold : ℚ) : ℚ :=
  match v with
  | none => 0
  | some x => max 0 (100 - x / threshold * 100)

/-- Boolean rendering of "this result's ttfb key (default `inf`) is
strictly smaller", the comparison `min(valid_results, key=lambda x:
x.get('ttfb', float('inf')))` performs. -/
def ttfbLt (a b : Option ℚ) : Bool :=
  match a, b with
  | some x, some y => decide (x < y)
  | some _, none => true
  | none, _ => false

/-- Python's `min(h :: t, key=ttfb)`: walk the tail, replacing the running
best only on a strictly smaller key (so the first minimum wins ties). -/
def minByTtfb (h : DnsResult) (t : List DnsResult) : DnsResult :=
  t.foldl (fun best r => if ttfbLt r.ttfb best.ttfb then r else best) h

/-- The line-appropriate origin choice of `_calculate_http_score`
(evaluator.py lines 190-222): best-ttfb of the available domestic origins
for domestic lines, GOOGLE for OVERSEAS, best of all available origins for
DEFAULT (the DEFAULT iteration order ALIYUN, BAIDU, GOOGLE is the insertion
order of `HTTPTester.dns_servers`).  `none` when no qualifying origin
responded. -/
def chooseHttpResult (ht : HttpTest) (isp : Line) : Option DnsResult :=
  match isp with
  | Line.TELECOM | Line.UNICOM | Line.MOBILE =>
    match ([ht.results Origin.ALIYUN, ht.results Origin.BAIDU].filterMap id).filter
        (fun r => r.available) with
    | [] => none
    | h :: t => some (minByTtfb h t)
  | Line.OVERSEAS =>
    match ht.results Origin.GOOGLE with
    | some g => if g.available then some g else none
    | none => none
  | Line.DEFAULT =>
    match ([ht.results Origin.ALIYUN, ht.results Origin.BAIDU,
        ht.results Origin.GOOGLE].filterMap id).filter (fun r => r.available) with
    | [] => none
    | h :: t => some (minByTtfb h t)

/-- Embedding of `IPEvaluator._calculate_http_score(http_result, isp)`
(evaluator.py lines 182-234): score the chosen origin's ttfb and total time
against the HTTP thresholds with weights 0.1 each.  Returns 0 when the HTTP
test is absent, unavailable, or no qualifying origin responded. -/
def httpScore (cfg : EvalConfig) (http : Option HttpTest) (isp : Line) : ℚ :=
  match http with
  | none => 0
  | some ht =>
    if ht.available = false then 0
    else
      match chooseHttpResult ht isp with
      | none => 0
      | some tr =>
        tierScore100 tr.ttfb cfg.http_ttfb_threshold * (1/10) +
          tierScore100 tr.total_time cfg.http_total_time_threshold * (1/10)

/-- One line's entry of `_calculate_ping_scores` (evaluator.py lines
153-180): latency score against the line threshold (absent latency =
`inf` scores 0), loss score with default 100, stability score with default
100, blended with the ping weights 0.4/0.2/0.2. -/
def pingLineScore (cfg : EvalConfig) (isp : ISP) (t : PingTest) : ℚ :=
  let latencyScore : ℚ :=
    match t.latency with
    | none => 0
    | some l => max 0 (100 - l / cfg.latency_thresholds isp.toLine * 100)
  let lossScore : ℚ := max 0 (100 - t.loss.getD 100)
  let stabilityScore : ℚ := max 0 (100 - t.stability.getD 100)
  latencyScore * (4/10) + lossScore * (2/10) + stabilityScore * (2/10)

/-- The `scores` dict built by `_calculate_ping_scores`: one entry per
available line test, insertion-ordered with overwrite semantics. -/
def pingScoresMap (cfg : EvalConfig) (tests : List (ISP × PingTest)) :
    List (ISP × ℚ) :=
  tests.foldl
    (fun acc p =>
      if p.2.available then dinsert p.1 (pingLineScore cfg p.1 p.2) acc else acc)
    []

/-- Python `dict.get(isp)` on the `tests` dict (first — and in a dict only —
binding of the key). -/
def lookupISP (tests : List (ISP × PingTest)) (isp : ISP) : Option PingTest :=
  (tests.find? fun p => decide (p.1 = isp)).map (fun p => p.2)

/-- Embedding of `IPEvaluator._calculate_penalties` (evaluator.py lines
236-256): halve when the HTTP test is unavailable, multiply by
`1 - 0.2 * n` when `n ≥ 1` of the three domestic ISPs are unavailable, and
multiply by 0.9 for each line test whose `latency_variance` (default 0)
exceeds 50. -/
def penalties (tests : List (ISP × PingTest)) (http : Option HttpTest) : ℚ :=
  let httpAvailable : Bool :=
    match http with
    | some ht => ht.available
    | none => false
  let p1 : ℚ := if httpAvailable then 1 else 1/2
  let failedKey : ℕ :=
    ([ISP.TELECOM, ISP.UNICOM, ISP.MOBILE].filter fun i =>
      !((lookupISP tests i).map (fun t => t.available)).getD false).length
  let p2 : ℚ := if 0 < failedKey then 1 - (2/10) * failedKey else 1
  let p3 : ℚ :=
    ((9:ℚ)/10) ^ ((tests.filter fun p => decide (50 < p.2.latency_variance.getD 0)).length)
  p1 * p2 * p3

/-- Embedding of `IPEvaluator.calculate_score(result, isp)` (evaluator.py
lines 126-151): ISP-weighted sum of the ping scores times the summed ping
weights (0.4+0.2+0.2), plus the HTTP score times the summed HTTP weights
(0.1+0.1), times the penalty factor. -/
def calculateScore (cfg : EvalConfig) (res : TestRes) (isp : Line) : ℚ :=
  let pingTotal : ℚ :=
    ((pingScoresMap cfg res.tests).map fun p => p.2 * ispWeight p.1).sum
  let hs : ℚ := httpScore cfg res.http_test isp
  (pingTotal * (4/10 + 2/10 + 2/10) + hs * (1/10 + 1/10)) * penalties res.tests res.http_test

/-- A `ScoredCandidate` appended to `evaluations[isp]` by `evaluate_batch`
(evaluator.py lines 292-299 and 321-327). -/
structure EvalEntry where
  ip : String
  score : ℚ
  latency : ℚ
  loss : ℚ
  http_score : ℚ
  node_id : Option String
deriving DecidableEq, Repr

/-- The per-ISP emission step of `evaluate_batch` (evaluator.py lines
275-304): an available line test whose latency is strictly below the line
threshold and whose line-appropriate HTTP score is positive yields a scored
candidate for that line. -/
def ispEmit (cfg : EvalConfig) (res : TestRes) (p : ISP × PingTest) :
    Option (ISP × EvalEntry) :=
  if p.2.available = false then none
  else
    match p.2.latency with
    | none => none
    | some lv =>
      if lv < cfg.latency_thresholds p.1.toLine then
        let hs := httpScore cfg res.http_test p.1.toLine
        if 0 < hs then
          some (p.1,
            { ip := res.ip
              score := calculateScore cfg res p.1.toLine
              latency := lv
              loss := p.2.loss.getD 0
              http_score := hs
              node_id := p.2.node_id })
        else none
      else none

/-- The available line tests of a result (`[test for test in
result['tests'].values() if test.get('available', False)]`). -/
def availTests (tests : List (ISP × PingTest)) : List PingTest :=
  (tests.map fun p => p.2).filter fun t => t.available

/-- The sum `sum(t['latency'] for t in valid_tests)` of the DEFAULT branch
(evaluator.py line 312): a direct `t['latency']` access, so an absent key
raises `KeyError` out of `evaluate_batch`. -/
def sumLatencies : List PingTest → Except Unit ℚ
  | [] => pure 0
  | t :: ts =>
    match t.latency with
    | some l => do
      let s ← sumLatencies ts
      pure (l + s)
    | none => throw ()

/-- The DEFAULT-line emission step of `evaluate_batch` (evaluator.py lines
306-331): when some line test is available, average the available tests'
latencies and emit a DEFAULT candidate when the average is below the
DEFAULT threshold and the DEFAULT HTTP score is positive. -/
def defaultEmit (cfg : EvalConfig) (res : TestRes) : Except Unit (List EvalEntry) := do
  let valid := availTests res.tests
  if valid = [] then pure []
  else
    let latSum ← sumLatencies valid
    let avg := latSum / (valid.length : ℚ)
    if avg < cfg.latency_thresholds Line.DEFAULT then
      let hs := httpScore cfg res.http_test Line.DEFAULT
      if 0 < hs then
        pure [{ ip := res.ip
                score := calculateScore cfg res Line.DEFAULT
                latency := avg
                loss := ((valid.map fun t => t.loss.getD 0).sum) / (valid.length : ℚ)
                http_score := hs
                node_id := none }]
      else pure []
    else pure []

/-- The contribution of one tester result to the evaluation dict: the
per-ISP emissions plus the DEFAULT emission (evaluator.py lines 267-331). -/
def evalResult (cfg : EvalConfig) (res : TestRes) :
    Except Unit (Line → List EvalEntry) := do
  let ispEntries := res.tests.filterMap (ispEmit cfg res)
  let dflt ← defaultEmit cfg res
  pure fun l =>
    (ispEntries.filter fun q => decide (q.1.toLine = l)).map (fun q => q.2) ++
      (if l = Line.DEFAULT then dflt else [])

/-- Embedding of `IPEvaluator.evaluate_batch(test_results)` (evaluator.py
lines 258-340): accumulate every result's emissions per line, in input
order.  The only exception the body can raise (`KeyError` on
`t['latency']` in the DEFAULT branch) aborts the whole call. -/
def evaluateBatch (cfg : EvalConfig) (results : List TestRes) :
    Except Unit (Line → List EvalEntry) :=
  results.foldlM
    (fun acc res => do
      let f ← evalResult cfg res
      pure fun l => acc l ++ f l)
    (fun _ => [])

/-! ### Validator (ip_validator.py `IPValidator`) -/

/-- The `TestResult` dataclass of ip_validator.py (lines 7-13), as built by
`_test_single_node` from a probe outcome. -/
structure TestResult where
  node_id : String
  latency : ℚ
  available : Bool
  loss : ℚ
deriving DecidableEq, Repr

/-- The enriched result `validate_ip` returns on confirmation
(ip_validator.py lines 103-120): average latency/loss over the confirming
nodes, the joined node list, and the per-node validation trail. -/
structure ValidationOutcome where
  latency : ℚ
  available : Bool
  loss : ℚ
  node_id : String
  ping_trail : List TestResult
  http_available : Bool
deriving DecidableEq, Repr

/-- The confirming subset `valid_ping_results` of ip_validator.py line 89:
probe tasks that returned a result which is available and within the line
threshold (a `None` from an errored `_test_single_node` fails the `if r`
test). -/
def validResults (threshold : ℚ) (pingResults : List (Option TestResult)) :
    List TestResult :=
  (pingResults.filterMap id).filter fun r =>
    r.available && decide (r.latency ≤ threshold)

/-- Embedding of the decision core of `IPValidator.validate_ip`
(ip_validator.py lines 88-127), given the outcome of the re-probe of the
sampled nodes (`pingResults`, one entry per sampled node, `none` when the
probe task itself errored and returned `None`) and of the HTTP re-probe.
Exception paths of the source map to `none`: an empty probe list makes
`len(ping_results)` a zero divisor; in the success branch, an empty
confirming set makes the averages divide by zero, and a `None` entry makes
the trail comprehension access `r.node_id` on `None`. -/
def validateDecision (threshold successRatio : ℚ) (selectedNodes : List String)
    (pingResults : List (Option TestResult)) (httpAvailable : Bool) :
    Option ValidationOutcome :=
  if pingResults.length = 0 then none
  else
    let valid := validResults threshold pingResults
    let rate : ℚ := (valid.length : ℚ) / (pingResults.length : ℚ)
    if successRatio ≤ rate ∧ httpAvailable = true then
      if valid.length = 0 ∨ pingResults.any (fun o => o.isNone) then none
      else
        some { latency := (valid.map fun r => r.latency).sum / (valid.length : ℚ)
               available := true
               loss := (valid.map fun r => r.loss).sum / (valid.length : ℚ)
               node_id := String.intercalate "," selectedNodes
               ping_trail := pingResults.filterMap id
               http_available := httpAvailable }
    else none

/-- Embedding of `IPValidator.validate_ip` including the node-pool step
(ip_validator.py lines 69-79): exclude the node used by the initial
measurement, require at least `len(pool) // 2` remaining nodes, then run
the decision core on the sampled nodes' outcomes. -/
def validateIp (pool : List String) (usedNode : Option String)
    (threshold successRatio : ℚ) (selectedNodes : List String)
    (pingResults : List (Option TestResult)) (httpAvailable : Bool) :
    Option ValidationOutcome :=
  let availableNodes := pool.filter fun n => usedNode ≠ some n
  if availableNodes.length < pool.length / 2 then none
  else validateDecision threshold successRatio selectedNodes pingResults httpAvailable

/-- Embedding of `IPValidator.batch_validate(evaluations)` (ip_validator.py
lines 188-216).  The per-candidate call `await self.validate_ip(ip, isp,
result)` followed by the merge `{**result, **validated}` is abstracted by
the oracle `validateFn`, which returns the merged candidate on confirmation
and `none` when `validate_ip` returns `None`.  The `DEFAULT` line and empty
lines are passed through unchanged. -/
def batchValidate (validateFn : Line → EvalEntry → Option EvalEntry)
    (evaluations : Line → List EvalEntry) : Line → List EvalEntry := fun isp =>
  if isp = Line.DEFAULT ∨ evaluations isp = [] then evaluations isp
  else (evaluations isp).filterMap (validateFn isp)

/-! ### Tester (ip_tester.py `IPTester`) -/

/-- The dict `test_single_ip` resolves to for one node probe: either the
success dict (available, measured latency, loss 0) or `_failed_result`
(unavailable, infinite latency, loss 100) — every probe that completes
yields all four keys (ip_tester.py lines 224-258). -/
structure PingProbe where
  latency : ℚ
  loss : ℚ
  available : Bool
  node_id : String
deriving DecidableEq, Repr

/-- View of a tester probe result as the `tests` entry the downstream
readers see: `latency`, `loss` and `node_id` present, no `stability` or
`latency_variance` keys. -/
def PingProbe.toPingTest (p : PingProbe) : PingTest where
  available := p.available
  latency := some p.latency
  loss := some p.loss
  stability := none
  latency_variance := none
  node_id := some p.node_id

/-- The aggregation step of `IPTester.test_ip` (ip_tester.py lines
106-117): an available result replaces the stored one only when no result
is stored yet or the stored latency is strictly larger; an unavailable
result never changes the stored entry. -/
def updateBest (cur : Option PingProbe) (r : PingProbe) : Option PingProbe :=
  if r.available then
    match cur with
    | none => some r
    | some c => if r.latency < c.latency then some r else some c
  else cur

/-- The aggregate `tests[isp]` entry after probing a line's nodes in order
(`none` when no node produced an available result). -/
def bestResult (rs : List PingProbe) : Option PingProbe :=
  rs.foldl updateBest none

/-- The static node catalog `NODE_IDS` of ip_tester.py lines 23-42 (the
validator carries an identical copy). -/
def NODE_IDS : ISP → List String
  | .TELECOM => ["1227", "1312", "1169", "1135", "1310",
                 "1132", "1214", "1311", "1138", "1304"]
  | .UNICOM => ["1254", "1275", "1278", "1264", "1273",
                "1266", "1276", "1277", "1253", "1226"]
  | .MOBILE => ["1249", "1237", "1290", "1294", "1250",
                "1295", "1287", "1242", "1245", "1283"]
  | .OVERSEAS => ["1340", "1341", "1343", "1345"]

/-- `random.choice(l)` with the random draw supplied as an oracle index. -/
def randomChoice (l : List String) (pick : ℕ) : String :=
  l.getD (pick % l.length) ""

/-- Embedding of `IPTester.get_test_nodes` (ip_tester.py lines 260-275):
one randomly chosen node for each domestic ISP, plus one OVERSEAS node
exactly when `test_config.overseas_mode` is set.  The absent `OVERSEAS`
dict key is the empty list. -/
def getTestNodes (overseasMode : Bool) (pick : ISP → ℕ) : ISP → List String
  | .OVERSEAS =>
    if overseasMode then [randomChoice (NODE_IDS ISP.OVERSEAS) (pick ISP.OVERSEAS)]
    else []
  | .TELECOM => [randomChoice (NODE_IDS ISP.TELECOM) (pick ISP.TELECOM)]
  | .UNICOM => [randomChoice (NODE_IDS ISP.UNICOM) (pick ISP.UNICOM)]
  | .MOBILE => [randomChoice (NODE_IDS ISP.MOBILE) (pick ISP.MOBILE)]

/-- Embedding of `IPTester.test_ip` (ip_tester.py lines 86-135): probe each
line's nodes (the `probe` oracle yields `none` when `test_single_ip`
raised, which the per-node `except` skips), keep the best available result
per line, and attach the HTTP test outcome (the `except` branch of the
HTTP phase still stores an unavailable dict, so `http_test` is always
present).  The `tests` dict iteration order TELECOM, UNICOM, MOBILE,
OVERSEAS is the insertion order of `get_test_nodes`. -/
def testIp (ip : String) (nodes : ISP → List String)
    (probe : String → Option PingProbe) (http : HttpTest) : TestRes where
  ip := ip
  status := Status.ok
  tests :=
    [ISP.TELECOM, ISP.UNICOM, ISP.MOBILE, ISP.OVERSEAS].filterMap fun isp =>
      match bestResult ((nodes isp).filterMap probe) with
      | some b => some (isp, b.toPingTest)
      | none => none
  http_test := some http

/-! ### Claim C9: best-of-node aggregation in `test_ip` -/

theorem updateBest_not_avail {r : PingProbe} (h : r.available = false)
    (acc : Option PingProbe) : updateBest acc r = acc := by
  unfold updateBest; rw [h]; simp

theorem updateBest_avail_none {r : PingProbe} (h : r.available = true) :
    updateBest none r = some r := by
  unfold updateBest; rw [h]; simp

theorem updateBest_avail_some {r c : PingProbe} (h : r.available = true) :
    updateBest (some c) r = if r.latency < c.latency then some r else some c := by
  unfold updateBest; rw [h]; simp

/-- Invariant of the tester's per-line fold: starting from a stored value
that is available (when present), the fold produces an available result
drawn from the input or the start, minimal among the available inputs and
no worse than the start. -/
theorem foldl_updateBest_spec :
    ∀ (rs : List PingProbe) (acc : Option PingProbe),
      (∀ a, acc = some a → a.available = true) →
      ∀ b, rs.foldl updateBest acc = some b →
        b.available = true ∧ (acc = some b ∨ b ∈ rs) ∧
          (∀ a, acc = some a → b.latency ≤ a.latency) ∧
          ∀ r ∈ rs, r.available = true → b.latency ≤ r.latency := by
  intro rs
  induction rs with
  | nil =>
    intro acc hacc b hb
    simp only [List.foldl_nil] at hb
    subst hb
    exact ⟨hacc b rfl, Or.inl rfl, fun a ha => by cases ha; exact le_rfl, by simp⟩
  | cons r rs ih =>
    intro acc hacc b hb
    simp only [List.foldl_cons] at hb
    cases hr : r.available with
    | false =>
      rw [updateBest_not_avail hr] at hb
      obtain ⟨h1, h2, h3, h4⟩ := ih acc hacc b hb
      refine ⟨h1, ?_, h3, ?_⟩
      · rcases h2 with h | h
        · exact Or.inl h
        · exact Or.inr (List.mem_cons_of_mem r h)
      · intro q hq hqa
        rcases List.mem_cons.mp hq with rfl | hq2
        · rw [hr] at hqa; cases hqa
        · exact h4 q hq2 hqa
    | true =>
      cases acc with
      | none =>
        rw [updateBest_avail_none hr] at hb
        obtain ⟨h1, h2, h3, h4⟩ := ih (some r) (fun a ha => by cases ha; exact hr) b hb
        refine ⟨h1, ?_, ?_, ?_⟩
        · rcases h2 with h | h
          · cases h; exact Or.inr (List.mem_cons_self r rs)
          · exact Or.inr (List.mem_cons_of_mem r h)
        · intro a ha
          cases ha
        · intro q hq hqa
          rcases List.mem_cons.mp hq with rfl | hq2
          · exact h3 q rfl
          · exact h4 q hq2 hqa
      | some c =>
        have hcavail : c.available = true := hacc c rfl
        rw [updateBest_avail_some hr] at hb
        by_cases hlt : r.latency < c.latency
        · rw [if_pos hlt] at hb
          obtain ⟨h1, h2, h3, h4⟩ := ih (some r) (fun a ha => by cases ha; exact hr) b hb
          have hbr : b.latency ≤ r.latency := h3 r rfl
          refine ⟨h1, ?_, ?_, ?_⟩
          · rcases h2 with h | h
            · cases h; exact Or.inr (List.mem_cons_self r rs)
            · exact Or.inr (List.mem_cons_of_mem r h)
          · intro a ha
            cases ha
            exact hbr.trans (le_of_lt hlt)
          · intro q hq hqa
            rcases List.mem_cons.mp hq with rfl | hq2
            · exact hbr
            · exact h4 q hq2 hqa
        · rw [if_neg hlt] at hb
          obtain ⟨h1, h2, h3, h4⟩ := ih (some c) (fun a ha => by cases ha; exact hcavail) b hb
          have hbc : b.latency ≤ c.latency := h3 c rfl
          refine ⟨h1, ?_, ?_, ?_⟩
          · rcases h2 with h | h
            · exact Or.inl h
            · exact Or.inr (List.mem_cons_of_mem r h)
          · intro a ha
            cases ha
            exact hbc
          · intro q hq hqa
            rcases List.mem_cons.mp hq with rfl | hq2
            · exact hbc.trans (not_lt.mp hlt)
            · exact h4 q hq2 hqa

theorem foldl_updateBest_none :
    ∀ (rs : List PingProbe) (acc : Option PingProbe),
      rs.foldl updateBest acc = none ↔
        acc = none ∧ ∀ r ∈ rs, r.available = false := by
  intro rs
  induction rs with
  | nil => intro acc; simp
  | cons r rs ih =>
    intro acc
    simp only [List.foldl_cons]
    rw [ih]
    constructor
    · rintro ⟨h2, hrs⟩
      cases hr : r.available with
      | false =>
        rw [updateBest_not_avail hr] at h2
        refine ⟨h2, ?_⟩
        intro q hq
        rcases List.mem_cons.mp hq with rfl | hq2
        · exact hr
        · exact hrs q hq2
      | true =>
        exfalso
        cases hc : acc with
        | none => rw [hc, updateBest_avail_none hr] at h2; cases h2
        | some c =>
          rw [hc, updateBest_avail_some hr] at h2
          by_cases hlt : r.latency < c.latency
          · rw [if_pos hlt] at h2; cases h2
          · rw [if_neg hlt] at h2; cases h2
    · rintro ⟨hacc, hall⟩
      have hr : r.available = false := hall r (List.mem_cons_self r rs)
      rw [updateBest_not_avail hr, hacc]
      refine ⟨rfl, ?_⟩
      intro q hq
      exact hall q (List.mem_cons_of_mem r hq)

/-- C9: for every list of node probe results for a line, the aggregate
stored in `tests[line]` by `test_ip` is an available result from this
round with the minimum latency among the available ones; when no node was
available nothing is stored; and an unavailable result never overwrites a
stored one. -/
theorem c9_best_of_node (rs : List PingProbe) :
    (bestResult rs = none ↔ ∀ r ∈ rs, r.available = false)
  ∧ (∀ b, bestResult rs = some b →
      b ∈ rs ∧ b.available = true ∧
        ∀ r ∈ rs, r.available = true → b.latency ≤ r.latency)
  ∧ (∀ cur r, r.available = false → updateBest cur r = cur) := by
  refine ⟨?_, ?_, ?_⟩
  · rw [bestResult, foldl_updateBest_none]; simp
  · intro b hb
    obtain ⟨h1, h2, _, h4⟩ :=
      foldl_updateBest_spec rs none (by intro a ha; cases ha) b hb
    rcases h2 with h | h
    · cases h
    · exact ⟨h, h1, h4⟩
  · intro cur r hr
    exact updateBest_not_avail hr cur

def c9rs : List PingProbe :=
  [⟨100, 0, true, "a"⟩, ⟨50, 0, true, "b"⟩, ⟨30, 0, false, "c"⟩]

def c9b : PingProbe := ⟨50, 0, true, "b"⟩

/-- C9 witness: on a concrete probe round the aggregate is the available
minimum-latency result, as given by the main theorem. -/
theorem c9_best_of_node_witness :
    bestResult c9rs = some c9b ∧ c9b ∈ c9rs ∧ c9b.available = true ∧
      ∀ r ∈ c9rs, r.available = true → c9b.latency ≤ r.latency := by
  have h : bestResult c9rs = some c9b := by with_unfolding_all rfl
  have h2 := (c9_best_of_node c9rs).2.1 c9b h
  exact ⟨h, h2⟩

/-! ### Claim C3: zero conditions of `_calculate_historical_score` -/

/-- C3 (amended): `_calculate_historical_score` returns 0 when the IP has
no history record, and returns 0 when the record's `last_update` is older
than the analysis window — the latter regardless of `update_count` and the
stored EMA values.  (A missing per-line latency entry alone does *not*
force a zero result; see the counterexample.) -/
theorem c3_historical_score_zero (analysisDays now : ℤ)
    (history : String → Option HistoryRecord) (ip : String) (isp : Line) :
    (history ip = none → historicalScore analysisDays now history ip isp = 0)
  ∧ ∀ r, history ip = some r → analysisDays < now - r.last_update →
      historicalScore analysisDays now history ip isp = 0 := by
  constructor
  · intro h
    unfold historicalScore
    rw [h]
  · intro r hr hold
    unfold historicalScore
    rw [hr]
    simp only [if_pos hold]

def c3rec : HistoryRecord where
  latency := fun _ => none
  ttfb := fun o => match o with | Origin.ALIYUN => some (5/100) | _ => none
  total_time := fun o => match o with | Origin.ALIYUN => some (3/10) | _ => none
  dns_performance := fun _ => none
  update_count := 1
  last_update := 0

def c3hist : String → Option HistoryRecord := fun ip =>
  if ip = "5.5.5.5" then some c3rec else none

/-- C3 counterexample: an unexpired record with *no* recorded latency entry
for the line still scores 204/5 ≠ 0 (its HTTP EMAs and stability term
contribute), so "no recorded latency entry for that line implies score 0"
fails on the code. -/
theorem c3_historical_score_zero_counterexample :
    c3hist "5.5.5.5" = some c3rec
  ∧ c3rec.latency Line.TELECOM = none
  ∧ ¬ (7:ℤ) < 0 - c3rec.last_update
  ∧ historicalScore 7 0 c3hist "5.5.5.5" Line.TELECOM = 204/5 := by
  refine ⟨by with_unfolding_all rfl, rfl, by decide, ?_⟩
  with_unfolding_all decide

def c3rec2 : HistoryRecord where
  latency := fun _ => some 50
  ttfb := fun _ => some (5/100)
  total_time := fun _ => some (3/10)
  dns_performance := fun _ => none
  update_count := 1000
  last_update := 0

def c3hist2 : String → Option HistoryRecord := fun ip =>
  if ip = "8.8.8.8" then some c3rec2 else none

/-- C3 witness: the amended theorem applied to an absent record and to a
record 10 days old with `analysis_days = 7` (score 0 despite a large
`update_count` and excellent stored EMAs). -/
theorem c3_historical_score_zero_witness :
    historicalScore 7 10 (fun _ => none) "1.2.3.4" Line.TELECOM = 0
  ∧ historicalScore 7 10 c3hist2 "8.8.8.8" Line.TELECOM = 0 := by
  constructor
  · exact (c3_historical_score_zero 7 10 (fun _ => none) "1.2.3.4" Line.TELECOM).1 rfl
  · exact (c3_historical_score_zero 7 10 c3hist2 "8.8.8.8" Line.TELECOM).2 c3rec2
      (by with_unfolding_all rfl) (by decide)

/-! ### Claim C4: validator coverage in `batch_validate` -/

/-- C4 (amended): for every non-`DEFAULT` line, every candidate admitted by
`batch_validate` is the confirmation of some gate-passing input candidate
by `validate_ip` (no unconfirmed candidate is admitted there); the
`DEFAULT` line is passed through unchanged, without any re-probing. -/
theorem c4_validator_coverage (validateFn : Line → EvalEntry → Option EvalEntry)
    (evaluations : Line → List EvalEntry) :
    (∀ isp, isp ≠ Line.DEFAULT →
      ∀ e ∈ batchValidate validateFn evaluations isp,
        ∃ c ∈ evaluations isp, validateFn isp c = some e)
  ∧ batchValidate validateFn evaluations Line.DEFAULT =
      evaluations Line.DEFAULT := by
  constructor
  · intro isp hisp e he
    unfold batchValidate at he
    by_cases hempty : evaluations isp = []
    · rw [if_pos (Or.inr hempty)] at he
      rw [hempty] at he
      cases he
    · rw [if_neg (by simp [hisp, hempty])] at he
      exact List.mem_filterMap.mp he
  · unfold batchValidate
    rw [if_pos (Or.inl rfl)]

def c4entry : EvalEntry :=
  { ip := "1.2.3.4", score := 10, latency := 50, loss := 0, http_score := 5,
    node_id := none }

def c4evals : Line → List EvalEntry := fun l =>
  if l = Line.DEFAULT then [c4entry] else []

/-- C4 counterexample: a `DEFAULT`-line candidate that passed the Evaluator
gate reaches the validated results even when `validate_ip` confirms nothing
at all (the oracle that always returns `None`), so "no gate-passing
candidate reaches Selection without re-probing" fails on the code. -/
theorem c4_validator_coverage_counterexample :
    batchValidate (fun _ _ => none) c4evals Line.DEFAULT = [c4entry]
  ∧ (fun (_ : Line) (_ : EvalEntry) => (none : Option EvalEntry)) Line.DEFAULT c4entry
      = none := by
  constructor
  · with_unfolding_all rfl
  · rfl

def c4wevals : Line → List EvalEntry := fun l =>
  if l = Line.TELECOM then [c4entry] else []

/-- C4 witness: for the non-`DEFAULT` lines of the amended theorem, an
admitted candidate is traced back to a confirming `validate_ip` call. -/
theorem c4_validator_coverage_witness :
    ∃ c ∈ c4wevals Line.TELECOM,
      (fun (_ : Line) (e : EvalEntry) => some e) Line.TELECOM c = some c4entry := by
  refine (c4_validator_coverage (fun _ e => some e) c4wevals).1 Line.TELECOM
    (by decide) c4entry ?_
  with_unfolding_all decide

/-! ### Claim C7: confirmation rule of `validate_ip` -/

theorem filterMap_id_length_of_all_isSome {α : Type} :
    ∀ (l : List (Option α)), (∀ o ∈ l, o.isSome = true) →
      (l.filterMap id).length = l.length := by
  intro l
  induction l with
  | nil => intro _; rfl
  | cons o l ih =>
    intro h
    have ho : o.isSome = true := h o (List.mem_cons_self o l)
    cases o with
    | none => cases ho
    | some a =>
      have hstep : List.filterMap id (some a :: l) = a :: List.filterMap id l := by
        simp
      rw [hstep, List.length_cons, List.length_cons,
        ih (fun q hq => h q (List.mem_cons_of_mem _ hq))]

/-- C7 (amended): the decision core of `validate_ip` confirms exactly when
the probe list is nonempty, the fraction of re-probed nodes that are
available and within the line threshold reaches the success ratio, the HTTP
re-probe is available, at least one node confirms, *and* every probe task
returned a result record (one errored task — a `None` in `ping_results` —
makes the success branch raise while building the trail, dropping the
candidate even at a sufficient ratio).  On confirmation, latency and loss
are the arithmetic means over the confirming nodes only, and the result
carries the complete per-node trail. -/
theorem c7_validate_ip_confirmation (threshold successRatio : ℚ)
    (selectedNodes : List String) (pingResults : List (Option TestResult))
    (httpAvailable : Bool) :
    ((validateDecision threshold successRatio selectedNodes pingResults
        httpAvailable).isSome = true ↔
      (pingResults ≠ [] ∧
       successRatio ≤ ((validResults threshold pingResults).length : ℚ) /
          (pingResults.length : ℚ) ∧
       httpAvailable = true ∧
       validResults threshold pingResults ≠ [] ∧
       ∀ o ∈ pingResults, o.isSome = true))
  ∧ ∀ out, validateDecision threshold successRatio selectedNodes pingResults
        httpAvailable = some out →
      out.latency = ((validResults threshold pingResults).map fun r => r.latency).sum /
          ((validResults threshold pingResults).length : ℚ) ∧
      out.loss = ((validResults threshold pingResults).map fun r => r.loss).sum /
          ((validResults threshold pingResults).length : ℚ) ∧
      out.available = true ∧
      out.http_available = httpAvailable ∧
      out.node_id = String.intercalate "," selectedNodes ∧
      out.ping_trail = pingResults.filterMap id ∧
      out.ping_trail.length = pingResults.length := by
  unfold validateDecision
  by_cases h1 : pingResults.length = 0
  · rw [if_pos h1]
    have hnil : pingResults = [] := List.length_eq_zero.mp h1
    constructor
    · simp [hnil]
    · intro out hout; cases hout
  · rw [if_neg h1]
    by_cases h2 : successRatio ≤ ((validResults threshold pingResults).length : ℚ) /
        (pingResults.length : ℚ) ∧ httpAvailable = true
    · rw [if_pos h2]
      by_cases h3 : (validResults threshold pingResults).length = 0 ∨
          pingResults.any (fun o => o.isNone) = true
      · rw [if_pos h3]
        constructor
        · simp only [Option.isSome_none, Bool.false_eq_true, false_iff]
          rintro ⟨hne, hrate, http, hvalid, hall⟩
          rcases h3 with h3 | h3
          · exact hvalid (List.length_eq_zero.mp h3)
          · obtain ⟨o, ho, hoN⟩ := List.any_eq_true.mp h3
            have := hall o ho
            rw [Option.isNone_iff_eq_none.mp hoN] at this
            cases this
        · intro out hout; cases hout
      · rw [if_neg h3]
        push_neg at h3
        obtain ⟨h3a, h3b⟩ := h3
        have hall : ∀ o ∈ pingResults, o.isSome = true := by
          intro o ho
          cases o with
          | some a => rfl
          | none =>
            exact absurd (List.any_eq_true.mpr ⟨none, ho, rfl⟩) h3b
        constructor
        · simp only [Option.isSome_some, true_iff]
          exact ⟨fun h => h1 (by rw [h]; rfl), h2.1, h2.2,
            fun h => h3a (by rw [h]; rfl), hall⟩
        · intro out hout
          cases hout
          refine ⟨rfl, rfl, rfl, rfl, rfl, rfl, ?_⟩
          exact filterMap_id_length_of_all_isSome pingResults hall
    · rw [if_neg h2]
      constructor
      · simp only [Option.isSome_none, Bool.false_eq_true, false_iff]
        rintro ⟨hne, hrate, http, hvalid, hall⟩
        exact h2 ⟨hrate, http⟩
      · intro out hout; cases hout

def c7probe (n : String) (lat : ℚ) : Option TestResult :=
  some { node_id := n, latency := lat, available := true, loss := 0 }

def c7results : List (Option TestResult) :=
  [c7probe "a" 50, c7probe "b" 50, c7probe "c" 50, c7probe "d" 50, none]

/-- C7 counterexample: five re-probed nodes, four of which are available
and within the threshold (fraction 4/5 = 0.8 ≥ the default ratio 0.8) and
the HTTP re-probe available, yet `validate_ip` returns `None`: the errored
fifth probe task left a `None` in `ping_results`, and the success branch's
trail construction raises on it.  The claim's "confirmed exactly when the
fraction ≥ success_ratio and HTTP is available" is false on the code. -/
theorem c7_validate_ip_confirmation_counterexample :
    (validResults 100 c7results).length = 4
  ∧ c7results.length = 5
  ∧ ((validResults 100 c7results).length : ℚ) / (c7results.length : ℚ) = 4/5
  ∧ (8/10 : ℚ) ≤ 4/5
  ∧ validateDecision 100 (8/10) ["a", "b", "c", "d", "e"] c7results true = none := by
  refine ⟨by with_unfolding_all rfl, rfl, ?_, by norm_num, by with_unfolding_all rfl⟩
  with_unfolding_all decide

def c7wresults : List (Option TestResult) :=
  [c7probe "a" 40, c7probe "b" 50, c7probe "c" 60, c7probe "d" 50, c7probe "e" 50]

def c7out : ValidationOutcome :=
  (validateDecision 100 (8/10) ["a", "b", "c", "d", "e"] c7wresults true).getD
    { latency := 0, available := false, loss := 0, node_id := "",
      ping_trail := [], http_available := false }

/-- C7 witness: a fully successful re-probe round is confirmed, and the
amended theorem yields the average-latency formula, evaluated here to 50. -/
theorem c7_validate_ip_confirmation_witness :
    validateDecision 100 (8/10) ["a", "b", "c", "d", "e"] c7wresults true = some c7out
  ∧ c7out.latency = 50 ∧ c7out.ping_trail.length = 5 := by
  have h : validateDecision 100 (8/10) ["a", "b", "c", "d", "e"] c7wresults true
      = some c7out := by with_unfolding_all rfl
  have h2 := (c7_validate_ip_confirmation 100 (8/10) ["a", "b", "c", "d", "e"]
    c7wresults true).2 c7out h
  refine ⟨h, h2.1.trans ?_, h2.2.2.2.2.2.2.trans (by rfl)⟩
  with_unfolding_all decide

/-! ### Claims C2 and C5: failure semantics and output bounds of
`analyze_and_update` -/

theorem except_bind_ok {α β : Type} {x : Except Unit α} {f : α → Except Unit β}
    {b : β} (h : x.bind f = Except.ok b) :
    ∃ a, x = Except.ok a ∧ f a = Except.ok b := by
  cases x with
  | error e => cases h
  | ok a => exact ⟨a, rfl, h⟩

theorem except_pure_eq_ok {α : Type} {a b : α}
    (h : (pure a : Except Unit α) = Except.ok b) : a = b := by
  injection h

theorem lineSelect_ok {env : AnalyzerEnv} {cur : Line → List String}
    {new : Line → List NewResult} {isp : Line} {l : List String}
    (h : lineSelect env cur new isp = Except.ok l) :
    ∃ scores, lineScores env cur new isp = Except.ok scores ∧
      l = selectLine scores ((env.maxRecordsPerLine isp).getD 1) := by
  unfold lineSelect at h
  obtain ⟨scores, hs, hp⟩ := except_bind_ok h
  exact ⟨scores, hs, (except_pure_eq_ok hp).symm⟩

theorem analyzeCore_ok_lines {env : AnalyzerEnv} {cur : Line → List String}
    {new : Line → List NewResult} {r : Line → List String}
    (h : analyzeCore env cur new = Except.ok r) (isp : Line) :
    ∃ scores, lineScores env cur new isp = Except.ok scores ∧
      r isp = selectLine scores ((env.maxRecordsPerLine isp).getD 1) := by
  unfold analyzeCore at h
  obtain ⟨t, ht, h⟩ := except_bind_ok h
  obtain ⟨u, hu, h⟩ := except_bind_ok h
  obtain ⟨m, hm, h⟩ := except_bind_ok h
  obtain ⟨o, ho, h⟩ := except_bind_ok h
  obtain ⟨d, hd, h⟩ := except_bind_ok h
  have hr := except_pure_eq_ok h
  cases isp with
  | TELECOM =>
    obtain ⟨sc, hsc, hl⟩ := lineSelect_ok ht
    exact ⟨sc, hsc, by rw [← hr]; exact hl⟩
  | UNICOM =>
    obtain ⟨sc, hsc, hl⟩ := lineSelect_ok hu
    exact ⟨sc, hsc, by rw [← hr]; exact hl⟩
  | MOBILE =>
    obtain ⟨sc, hsc, hl⟩ := lineSelect_ok hm
    exact ⟨sc, hsc, by rw [← hr]; exact hl⟩
  | OVERSEAS =>
    obtain ⟨sc, hsc, hl⟩ := lineSelect_ok ho
    exact ⟨sc, hsc, by rw [← hr]; exact hl⟩
  | DEFAULT =>
    obtain ⟨sc, hsc, hl⟩ := lineSelect_ok hd
    exact ⟨sc, hsc, by rw [← hr]; exact hl⟩

/-- C2 (amended): `analyze_and_update` has whole-map failure semantics, not
per-line semantics: the `try` wraps the entire per-line loop, so as soon as
score computation raises for *any* line, the previously published mapping
`current_ips` is returned for *every* line, discarding all other lines'
computed selections. -/
theorem c2_exception_reverts_everything (env : AnalyzerEnv)
    (cur : Line → List String) (new : Line → List NewResult)
    (h : ∃ isp, lineScores env cur new isp = Except.error ()) :
    analyze_and_update env cur new = cur := by
  unfold analyze_and_update
  cases hc : analyzeCore env cur new with
  | error e => rfl
  | ok r =>
    exfalso
    obtain ⟨isp, hisp⟩ := h
    obtain ⟨scores, hs, _⟩ := analyzeCore_ok_lines hc isp
    rw [hisp] at hs
    cases hs

def c2badResult : NewResult := { ip := some "4.4.4.4", latency := none, http_test := none }

def c2goodResult : NewResult := { ip := some "1.1.1.1", latency := some 10, http_test := none }

def c2env : AnalyzerEnv :=
  { maxRecordsPerLine := fun _ => some 1
    analysisDays := 7
    history := fun _ => none
    now := 0 }

def c2cur : Line → List String := fun l =>
  match l with
  | Line.TELECOM => ["8.8.8.8"]
  | Line.UNICOM => ["7.7.7.7"]
  | _ => []

def c2new : Line → List NewResult := fun l =>
  match l with
  | Line.TELECOM => [c2badResult]
  | Line.UNICOM => [c2goodResult]
  | _ => []

/-- C2 counterexample: scoring the TELECOM line raises (the result dict has
no `latency` key), UNICOM's selection computes to `["1.1.1.1"]` on its own,
yet `analyze_and_update` returns the previously published `["7.7.7.7"]`
for UNICOM — the computed result of a non-failing line is discarded, so
per-line failure isolation fails on the code. -/
theorem c2_exception_reverts_everything_counterexample :
    lineScores c2env c2cur c2new Line.TELECOM = Except.error ()
  ∧ lineSelect c2env c2cur c2new Line.UNICOM = Except.ok ["1.1.1.1"]
  ∧ analyze_and_update c2env c2cur c2new Line.UNICOM = ["7.7.7.7"]
  ∧ c2cur Line.UNICOM = ["7.7.7.7"] := by
  refine ⟨?_, ?_, ?_, rfl⟩ <;> with_unfolding_all rfl

/-- C2 witness: the amended fallback theorem applied to the concrete
failing input. -/
theorem c2_exception_reverts_everything_witness :
    analyze_and_update c2env c2cur c2new = c2cur :=
  c2_exception_reverts_everything c2env c2cur c2new
    ⟨Line.TELECOM, by with_unfolding_all rfl⟩

theorem dinsert_forall {α β : Type} [DecidableEq α] {P : β → Prop} (k : α) (v : β) :
    ∀ (l : List (α × β)), (∀ p ∈ l, P p.2) → P v →
      ∀ p ∈ dinsert k v l, P p.2 := by
  intro l
  induction l with
  | nil =>
    intro _ hv p hp
    rcases List.mem_singleton.mp hp with rfl
    exact hv
  | cons q l ih =>
    intro hl hv p hp
    unfold dinsert at hp
    by_cases hk : q.1 = k
    · rw [if_pos hk] at hp
      rcases List.mem_cons.mp hp with rfl | hp2
      · exact hv
      · exact hl p (List.mem_cons_of_mem q hp2)
    · rw [if_neg hk] at hp
      rcases List.mem_cons.mp hp with heq | hp2
      · subst heq
        exact hl p (List.mem_cons_self _ l)
      · exact ih (fun p hp => hl p (List.mem_cons_of_mem q hp)) hv p hp2

theorem foldl_hist_scores_pos (f : String → ℚ) :
    ∀ (ips : List String) (acc : List (String × ℚ)),
      (∀ p ∈ acc, (0:ℚ) < p.2) →
      ∀ p ∈ ips.foldl
          (fun acc ip => if 0 < f ip then dinsert ip (f ip) acc else acc) acc,
        (0:ℚ) < p.2 := by
  intro ips
  induction ips with
  | nil => intro acc hacc p hp; exact hacc p hp
  | cons ip ips ih =>
    intro acc hacc p hp
    simp only [List.foldl_cons] at hp
    by_cases hs : 0 < f ip
    · rw [if_pos hs] at hp
      exact ih _ (dinsert_forall ip (f ip) acc hacc hs) p hp
    · rw [if_neg hs] at hp
      exact ih _ hacc p hp

theorem foldlM_new_scores_pos :
    ∀ (rs : List NewResult) (acc : List (String × ℚ)),
      (∀ p ∈ acc, (0:ℚ) < p.2) →
      ∀ out,
        (rs.foldlM
          (fun acc r => do
            let (ip, s) ← scoreNewResult r
            pure (if 0 < s then dinsert ip s acc else acc)) acc) = Except.ok out →
        ∀ p ∈ out, (0:ℚ) < p.2 := by
  intro rs
  induction rs with
  | nil =>
    intro acc hacc out hout p hp
    rw [← except_pure_eq_ok hout] at hp
    exact hacc p hp
  | cons r rs ih =>
    intro acc hacc out hout p hp
    rw [List.foldlM_cons] at hout
    obtain ⟨v, hv, hrest⟩ := except_bind_ok hout
    obtain ⟨w, hw, hpure⟩ := except_bind_ok hv
    have hwacc := except_pure_eq_ok hpure
    rw [← hwacc] at hrest
    by_cases hs : 0 < w.2
    · rw [if_pos hs] at hrest
      exact ih _ (dinsert_forall w.1 w.2 acc hacc hs) out hrest p hp
    · rw [if_neg hs] at hrest
      exact ih _ hacc out hrest p hp

theorem foldl_dinsert_pos :
    ∀ (l : List (String × ℚ)) (acc : List (String × ℚ)),
      (∀ p ∈ acc, (0:ℚ) < p.2) → (∀ p ∈ l, (0:ℚ) < p.2) →
      ∀ p ∈ l.foldl (fun acc q => dinsert q.1 q.2 acc) acc, (0:ℚ) < p.2 := by
  intro l
  induction l with
  | nil => intro acc hacc _ p hp; exact hacc p hp
  | cons q l ih =>
    intro acc hacc hl p hp
    simp only [List.foldl_cons] at hp
    refine ih _ (dinsert_forall q.1 q.2 acc hacc (hl q (List.mem_cons_self q l))) ?_ p hp
    intro q2 hq2
    exact hl q2 (List.mem_cons_of_mem q hq2)

theorem lineScores_ok_pos {env : AnalyzerEnv} {cur : Line → List String}
    {new : Line → List NewResult} {isp : Line} {scores : List (String × ℚ)}
    (h : lineScores env cur new isp = Except.ok scores) :
    ∀ p ∈ scores, (0:ℚ) < p.2 := by
  unfold lineScores at h
  obtain ⟨newScores, hns, hpure⟩ := except_bind_ok h
  rw [← except_pure_eq_ok hpure]
  refine foldl_dinsert_pos newScores _ ?_ ?_
  · exact foldl_hist_scores_pos
      (fun ip => historicalScore env.analysisDays env.now env.history ip isp)
      (cur isp) [] (by simp)
  · exact foldlM_new_scores_pos (new isp) [] (by simp) newScores hns

theorem selectLine_length (scores : List (String × ℚ)) (maxR : ℕ) :
    (selectLine scores maxR).length ≤ maxR := by
  unfold selectLine
  rw [List.length_map]
  exact (List.length_take_le maxR _)

theorem selectLine_mem {scores : List (String × ℚ)} {maxR : ℕ} {ip : String}
    (h : ip ∈ selectLine scores maxR) : ∃ s, (ip, s) ∈ scores := by
  unfold selectLine at h
  obtain ⟨p, hp, rfl⟩ := List.mem_map.mp h
  have h2 : p ∈ List.insertionSort scoreOrder scores := List.mem_of_mem_take hp
  have h3 : p ∈ scores := (List.mem_insertionSort scoreOrder).mp h2
  exact ⟨p.2, h3⟩

/-- C5: on the non-exception path of `analyze_and_update` (the computation
of analyzer.py lines 63-105 completing without raising), every line's
returned list has at most `max_records_per_line.get(isp, 1)` IPs, and every
returned IP carries a merged score strictly greater than 0.  (The `except`
fallback path, which returns `current_ips` verbatim, is exempt — see the
counterexample.) -/
theorem c5_selection_bounds (env : AnalyzerEnv) (cur : Line → List String)
    (new : Line → List NewResult) (r : Line → List String)
    (h : analyzeCore env cur new = Except.ok r) (isp : Line) :
    (r isp).length ≤ (env.maxRecordsPerLine isp).getD 1
  ∧ ∀ ip ∈ r isp, ∃ scores s, lineScores env cur new isp = Except.ok scores ∧
      (ip, s) ∈ scores ∧ (0:ℚ) < s := by
  obtain ⟨scores, hs, hr⟩ := analyzeCore_ok_lines h isp
  constructor
  · rw [hr]; exact selectLine_length scores _
  · intro ip hip
    rw [hr] at hip
    obtain ⟨s, hmem⟩ := selectLine_mem hip
    exact ⟨scores, s, hs, hmem, lineScores_ok_pos hs (ip, s) hmem⟩

def c5cur : Line → List String := fun l =>
  match l with
  | Line.TELECOM => ["2.2.2.2", "3.3.3.3"]
  | _ => []

def c5new : Line → List NewResult := fun l =>
  match l with
  | Line.TELECOM => [c2badResult]
  | _ => []

/-- C5 counterexample: with `max_records_per_line[TELECOM] = 1`, two
published TELECOM IPs (historical score 0 — no history) and one malformed
new result, the analysis raises and `analyze_and_update` returns the
published list verbatim: two IPs, exceeding the cap, none of them carrying
a positive score.  The claim is false on the exception path of the code. -/
theorem c5_selection_bounds_counterexample :
    analyze_and_update c2env c5cur c5new Line.TELECOM = ["2.2.2.2", "3.3.3.3"]
  ∧ ¬ (analyze_and_update c2env c5cur c5new Line.TELECOM).length ≤
      (c2env.maxRecordsPerLine Line.TELECOM).getD 1
  ∧ historicalScore c2env.analysisDays c2env.now c2env.history "2.2.2.2" Line.TELECOM = 0 := by
  refine ⟨by with_unfolding_all rfl, by with_unfolding_all decide,
    by with_unfolding_all rfl⟩

def c5okNew : Line → List NewResult := fun l =>
  match l with
  | Line.TELECOM => [c2goodResult]
  | _ => []

def c5res : Line → List String :=
  match analyzeCore c2env c5cur c5okNew with
  | Except.ok r => r
  | Except.error _ => fun _ => []

/-- C5 witness: on a well-formed input the analysis completes, and the
amended bound theorem applies: the TELECOM selection keeps at most one IP,
each with positive merged score. -/
theorem c5_selection_bounds_witness :
    analyzeCore c2env c5cur c5okNew = Except.ok c5res
  ∧ (c5res Line.TELECOM).length ≤ (c2env.maxRecordsPerLine Line.TELECOM).getD 1
  ∧ c5res Line.TELECOM = ["1.1.1.1"] := by
  have h : analyzeCore c2env c5cur c5okNew = Except.ok c5res := by
    with_unfolding_all rfl
  exact ⟨h, (c5_selection_bounds c2env c5cur c5okNew c5res h Line.TELECOM).1,
    by with_unfolding_all rfl⟩

/-! ### Claim C1: tie-breaking in the selection sort -/

/-- C1 (amended): ties in `analyze_and_update`'s ranking are broken by
lexicographic IP order alone — incumbency confers no advantage.  Whenever
two IPs tie at the maximal score of the merged score dict and a single
selection slot remains, the selected IP is never the lexicographically
larger of the two, whether or not it is currently published. -/
theorem c1_tie_break_lexicographic (m : List (String × ℚ)) (ip1 ip2 : String)
    (s : ℚ) (h1 : (ip1, s) ∈ m) (_h2 : (ip2, s) ∈ m)
    (hlt : ip1.data < ip2.data) (_hmax : ∀ p ∈ m, p.2 ≤ s)
    (huniq : ∀ s2, (ip2, s2) ∈ m → s2 = s) :
    selectLine m 1 ≠ [ip2] := by
  intro hsel
  unfold selectLine at hsel
  have hsorted := List.sorted_insertionSort scoreOrder m
  have h1L : (ip1, s) ∈ List.insertionSort scoreOrder m :=
    (List.mem_insertionSort scoreOrder).mpr h1
  cases hL : List.insertionSort scoreOrder m with
  | nil => rw [hL] at h1L; cases h1L
  | cons p T =>
    rw [hL] at hsel
    simp only [List.take_succ_cons, List.take_zero, List.map_cons, List.map_nil] at hsel
    have hp1 : p.1 = ip2 := ((List.cons.injEq _ _ _ _).mp hsel).1
    have hpm : p ∈ m := (List.mem_insertionSort scoreOrder).mp (by rw [hL]; exact List.mem_cons_self p T)
    have hps : p.2 = s := huniq p.2 (by rw [← hp1]; exact hpm)
    rw [hL] at h1L hsorted
    rcases List.mem_cons.mp h1L with heq | hmem
    · have : ip1 = ip2 := by rw [← hp1, ← heq]
      rw [this] at hlt
      exact lt_irrefl _ hlt
    · have horder : scoreOrder p (ip1, s) :=
        List.rel_of_sorted_cons hsorted (ip1, s) hmem
      unfold scoreOrder at horder
      rcases horder with hlt2 | ⟨_, hle⟩
      · rw [hps] at hlt2
        exact lt_irrefl s hlt2
      · rw [hp1] at hle
        exact absurd hle (not_le.mpr hlt)

def c1hist : String → Option HistoryRecord := fun ip =>
  if ip = "9.9.9.9" then
    some { latency := fun l => if l = Line.TELECOM then some 200 else none
           ttfb := fun _ => none
           total_time := fun _ => none
           dns_performance := fun _ => none
           update_count := 10
           last_update := 0 }
  else none

def c1new : NewResult := { ip := some "1.1.1.1", latency := some 14, http_test := none }

def c1env : AnalyzerEnv :=
  { maxRecordsPerLine := fun _ => some 1
    analysisDays := 7
    history := c1hist
    now := 0 }

def c1cur : Line → List String := fun l =>
  if l = Line.TELECOM then ["9.9.9.9"] else []

def c1newResults : Line → List NewResult := fun l =>
  if l = Line.TELECOM then [c1new] else []

/-- C1 counterexample: the published IP `9.9.9.9` has historical score
exactly 50, the brand-new validated candidate `1.1.1.1` scores exactly 50,
a single TELECOM slot remains — and `analyze_and_update` selects
`1.1.1.1`, dropping the incumbent.  The claimed incumbent-first tie-break
does not exist in the code: the sort key is `(-score, ip)` only. -/
theorem c1_tie_break_lexicographic_counterexample :
    historicalScore 7 0 c1hist "9.9.9.9" Line.TELECOM = 50
  ∧ scoreNewResult c1new = Except.ok ("1.1.1.1", 50)
  ∧ c1cur Line.TELECOM = ["9.9.9.9"]
  ∧ (c1env.maxRecordsPerLine Line.TELECOM).getD 1 = 1
  ∧ lineScores c1env c1cur c1newResults Line.TELECOM =
      Except.ok [("9.9.9.9", 50), ("1.1.1.1", 50)]
  ∧ analyze_and_update c1env c1cur c1newResults Line.TELECOM = ["1.1.1.1"] := by
  refine ⟨?_, ?_, rfl, rfl, ?_, ?_⟩ <;> with_unfolding_all rfl

/-- C1 witness: the amended tie-break theorem applied to the merged score
dict of the counterexample run: the selection cannot be the
lexicographically larger `9.9.9.9`. -/
theorem c1_tie_break_lexicographic_witness :
    selectLine [("9.9.9.9", (50:ℚ)), ("1.1.1.1", 50)] 1 ≠ ["9.9.9.9"] := by
  refine c1_tie_break_lexicographic _ "1.1.1.1" "9.9.9.9" 50 ?_ ?_ ?_ ?_ ?_
  · with_unfolding_all decide
  · with_unfolding_all decide
  · with_unfolding_all decide
  · with_unfolding_all decide
  · intro s2 hmem
    rcases List.mem_cons.mp hmem with heq | hmem2
    · exact ((Prod.mk.injEq _ _ _ _).mp heq).2
    · rcases List.mem_cons.mp hmem2 with heq | h3
      · exact absurd ((Prod.mk.injEq _ _ _ _).mp heq).1 (by decide)
      · cases h3

/-! ### Claim C8: the EMA fold of `save_history` -/

theorem ISP.toLine_inj {a b : ISP} (h : a.toLine = b.toLine) : a = b := by
  revert h
  cases a <;> cases b <;> decide

theorem latStep_ttfb (r : HistoryRecord) (p : ISP × PingTest) :
    (latStep r p).ttfb = r.ttfb := by
  unfold latStep
  cases hl : p.2.latency <;> split_ifs <;> rfl

theorem latStep_total_time (r : HistoryRecord) (p : ISP × PingTest) :
    (latStep r p).total_time = r.total_time := by
  unfold latStep
  cases hl : p.2.latency <;> split_ifs <;> rfl

theorem latStep_update_count (r : HistoryRecord) (p : ISP × PingTest) :
    (latStep r p).update_count = r.update_count := by
  unfold latStep
  cases hl : p.2.latency <;> split_ifs <;> rfl

theorem latStep_latency_other (r : HistoryRecord) (p : ISP × PingTest)
    (l : Line) (h : p.1.toLine ≠ l) : (latStep r p).latency l = r.latency l := by
  unfold latStep
  cases hl : p.2.latency <;> split_ifs <;>
    simp [Function.update_noteq (Ne.symm h)]

theorem latStep_latency_self (r : HistoryRecord) (p : ISP × PingTest) (lv : ℚ)
    (havail : p.2.available = true) (hlat : p.2.latency = some lv) :
    (latStep r p).latency p.1.toLine = some (emaFold lv (r.latency p.1.toLine)) := by
  unfold latStep
  rw [hlat, if_pos havail]
  simp [Function.update_same]

theorem updateLatencies_update_count :
    ∀ (tests : List (ISP × PingTest)) (r : HistoryRecord),
      (updateLatencies tests r).update_count = r.update_count := by
  intro tests
  unfold updateLatencies
  induction tests with
  | nil => intro r; rfl
  | cons p tests ih =>
    intro r
    rw [List.foldl_cons, ih, latStep_update_count]

theorem updateLatencies_ttfb :
    ∀ (tests : List (ISP × PingTest)) (r : HistoryRecord),
      (updateLatencies tests r).ttfb = r.ttfb := by
  intro tests
  unfold updateLatencies
  induction tests with
  | nil => intro r; rfl
  | cons p tests ih =>
    intro r
    rw [List.foldl_cons, ih, latStep_ttfb]

theorem updateLatencies_total_time :
    ∀ (tests : List (ISP × PingTest)) (r : HistoryRecord),
      (updateLatencies tests r).total_time = r.total_time := by
  intro tests
  unfold updateLatencies
  induction tests with
  | nil => intro r; rfl
  | cons p tests ih =>
    intro r
    rw [List.foldl_cons, ih, latStep_total_time]

theorem updateLatencies_preserve_key :
    ∀ (tests : List (ISP × PingTest)) (r : HistoryRecord) (l : Line),
      (∀ p ∈ tests, p.1.toLine ≠ l) →
      (updateLatencies tests r).latency l = r.latency l := by
  intro tests
  unfold updateLatencies
  induction tests with
  | nil => intro r l _; rfl
  | cons q tests ih =>
    intro r l hne
    rw [List.foldl_cons, ih _ l (fun p hp => hne p (List.mem_cons_of_mem q hp)),
      latStep_latency_other r q l (hne q (List.mem_cons_self q tests))]

theorem countP_pos_of_mem {α : Type} {l : List α} {a : α} (h : a ∈ l)
    {p : α → Bool} (hp : p a = true) : 0 < l.countP p := by
  induction l with
  | nil => cases h
  | cons b l ih =>
    rcases List.mem_cons.mp h with rfl | h2
    · rw [List.countP_cons, hp, if_pos rfl]
      omega
    · rw [List.countP_cons]
      have := ih h2
      omega

theorem updateLatencies_at_key :
    ∀ (tests : List (ISP × PingTest)) (r : HistoryRecord) (isp : ISP)
      (t : PingTest) (lv : ℚ),
      (isp, t) ∈ tests → tests.countP (fun p => decide (p.1 = isp)) = 1 →
      t.available = true → t.latency = some lv →
      (updateLatencies tests r).latency isp.toLine =
        some (emaFold lv (r.latency isp.toLine)) := by
  intro tests
  induction tests with
  | nil => intro r isp t lv hmem _ _ _; cases hmem
  | cons q tests ih =>
    intro r isp t lv hmem hcount havail hlat
    rw [List.countP_cons] at hcount
    rcases List.mem_cons.mp hmem with heq | hmem2
    · have hq : q = (isp, t) := heq.symm
      subst hq
      rw [if_pos (by simp)] at hcount
      have hrest : tests.countP (fun p => decide (p.1 = isp)) = 0 := by omega
      have hnone : ∀ p ∈ tests, p.1.toLine ≠ isp.toLine := by
        intro p hp hcontra
        have hpeq : p.1 = isp := ISP.toLine_inj hcontra
        have hpos := countP_pos_of_mem hp (p := fun p => decide (p.1 = isp))
          (by simp [hpeq])
        omega
      unfold updateLatencies
      rw [List.foldl_cons]
      have hpres := updateLatencies_preserve_key tests (latStep r (isp, t))
        isp.toLine hnone
      unfold updateLatencies at hpres
      rw [hpres, latStep_latency_self r (isp, t) lv havail hlat]
    · by_cases hq1 : q.1 = isp
      · exfalso
        rw [if_pos (by simp [hq1])] at hcount
        have := countP_pos_of_mem hmem2 (p := fun p => decide (p.1 = isp)) (by simp)
        omega
      · rw [if_neg (by simp [hq1])] at hcount
        unfold updateLatencies
        rw [List.foldl_cons]
        have ihq := ih (latStep r q) isp t lv hmem2 hcount havail hlat
        unfold updateLatencies at ihq
        rw [ihq, latStep_latency_other r q isp.toLine (fun h => hq1 (ISP.toLine_inj h))]

theorem updateHttpOrigin_latency (ht : HttpTest) (o : Origin) (r : HistoryRecord) :
    (updateHttpOrigin ht o r).latency = r.latency := by
  unfold updateHttpOrigin
  cases ht.results o with
  | none => rfl
  | some dns => dsimp only; split_ifs <;> rfl

theorem updateHttpOrigin_update_count (ht : HttpTest) (o : Origin) (r : HistoryRecord) :
    (updateHttpOrigin ht o r).update_count = r.update_count := by
  unfold updateHttpOrigin
  cases ht.results o with
  | none => rfl
  | some dns => dsimp only; split_ifs <;> rfl

theorem updateHttpOrigin_ttfb_other (ht : HttpTest) (o o2 : Origin)
    (r : HistoryRecord) (h : o2 ≠ o) :
    (updateHttpOrigin ht o r).ttfb o2 = r.ttfb o2 := by
  unfold updateHttpOrigin
  cases ht.results o with
  | none => rfl
  | some dns =>
    dsimp only
    split_ifs <;> first | rfl | simp [Function.update_noteq h]

theorem updateHttpOrigin_total_time_other (ht : HttpTest) (o o2 : Origin)
    (r : HistoryRecord) (h : o2 ≠ o) :
    (updateHttpOrigin ht o r).total_time o2 = r.total_time o2 := by
  unfold updateHttpOrigin
  cases ht.results o with
  | none => rfl
  | some dns =>
    dsimp only
    split_ifs <;> first | rfl | simp [Function.update_noteq h]

theorem updateHttpOrigin_ttfb_self {ht : HttpTest} {o : Origin} {dns : DnsResult}
    {tv : ℚ} (hres : ht.results o = some dns) (hdns : dns.available = true)
    (httfb : dns.ttfb = some tv) (hpos : 0 < tv) (r : HistoryRecord) :
    (updateHttpOrigin ht o r).ttfb o = some (emaFold tv (r.ttfb o)) := by
  unfold updateHttpOrigin
  rw [hres]
  dsimp only
  rw [if_pos hdns]
  simp only [httfb, Option.getD_some]
  rw [if_pos hpos]
  split_ifs <;> simp [Function.update_same]

theorem updateHttpOrigin_total_time_self {ht : HttpTest} {o : Origin}
    {dns : DnsResult} {tv : ℚ} (hres : ht.results o = some dns)
    (hdns : dns.available = true) (htt : dns.total_time = some tv) (hpos : 0 < tv)
    (r : HistoryRecord) :
    (updateHttpOrigin ht o r).total_time o = some (emaFold tv (r.total_time o)) := by
  unfold updateHttpOrigin
  rw [hres]
  dsimp only
  rw [if_pos hdns]
  simp only [htt, Option.getD_some]
  rw [if_pos hpos]
  split_ifs <;> simp [Function.update_same]

theorem foldl_updateHttp_latency (ht : HttpTest) :
    ∀ (os : List Origin) (r : HistoryRecord),
      (os.foldl (fun r o => updateHttpOrigin ht o r) r).latency = r.latency := by
  intro os
  induction os with
  | nil => intro r; rfl
  | cons o os ih =>
    intro r
    simp only [List.foldl_cons]
    rw [ih, updateHttpOrigin_latency]

theorem foldl_updateHttp_update_count (ht : HttpTest) :
    ∀ (os : List Origin) (r : HistoryRecord),
      (os.foldl (fun r o => updateHttpOrigin ht o r) r).update_count = r.update_count := by
  intro os
  induction os with
  | nil => intro r; rfl
  | cons o os ih =>
    intro r
    simp only [List.foldl_cons]
    rw [ih, updateHttpOrigin_update_count]

theorem saveHttpFold_latency (http : Option HttpTest) (r : HistoryRecord) :
    (saveHttpFold http r).latency = r.latency := by
  unfold saveHttpFold
  cases http with
  | none => rfl
  | some ht =>
    dsimp only
    split_ifs
    · exact foldl_updateHttp_latency ht _ r
    · rfl

theorem saveHttpFold_update_count (http : Option HttpTest) (r : HistoryRecord) :
    (saveHttpFold http r).update_count = r.update_count := by
  unfold saveHttpFold
  cases http with
  | none => rfl
  | some ht =>
    dsimp only
    split_ifs
    · exact foldl_updateHttp_update_count ht _ r
    · rfl

theorem saveHttpFold_ttfb_self {ht : HttpTest} {o : Origin} {dns : DnsResult}
    {tv : ℚ} (havail : ht.available = true) (hres : ht.results o = some dns)
    (hdns : dns.available = true) (httfb : dns.ttfb = some tv) (hpos : 0 < tv)
    (r : HistoryRecord) :
    (saveHttpFold (some ht) r).ttfb o = some (emaFold tv (r.ttfb o)) := by
  unfold saveHttpFold
  dsimp only
  rw [if_pos havail]
  simp only [List.foldl_cons, List.foldl_nil]
  cases o with
  | ALIYUN =>
    rw [updateHttpOrigin_ttfb_other ht Origin.GOOGLE Origin.ALIYUN _ (by decide),
      updateHttpOrigin_ttfb_other ht Origin.BAIDU Origin.ALIYUN _ (by decide),
      updateHttpOrigin_ttfb_self hres hdns httfb hpos]
  | BAIDU =>
    rw [updateHttpOrigin_ttfb_other ht Origin.GOOGLE Origin.BAIDU _ (by decide),
      updateHttpOrigin_ttfb_self hres hdns httfb hpos,
      updateHttpOrigin_ttfb_other ht Origin.ALIYUN Origin.BAIDU _ (by decide)]
  | GOOGLE =>
    rw [updateHttpOrigin_ttfb_self hres hdns httfb hpos,
      updateHttpOrigin_ttfb_other ht Origin.BAIDU Origin.GOOGLE _ (by decide),
      updateHttpOrigin_ttfb_other ht Origin.ALIYUN Origin.GOOGLE _ (by decide)]

theorem saveHttpFold_total_time_self {ht : HttpTest} {o : Origin}
    {dns : DnsResult} {tv : ℚ} (havail : ht.available = true)
    (hres : ht.results o = some dns) (hdns : dns.available = true)
    (htt : dns.total_time = some tv) (hpos : 0 < tv) (r : HistoryRecord) :
    (saveHttpFold (some ht) r).total_time o = some (emaFold tv (r.total_time o)) := by
  unfold saveHttpFold
  dsimp only
  rw [if_pos havail]
  simp only [List.foldl_cons, List.foldl_nil]
  cases o with
  | ALIYUN =>
    rw [updateHttpOrigin_total_time_other ht Origin.GOOGLE Origin.ALIYUN _ (by decide),
      updateHttpOrigin_total_time_other ht Origin.BAIDU Origin.ALIYUN _ (by decide),
      updateHttpOrigin_total_time_self hres hdns htt hpos]
  | BAIDU =>
    rw [updateHttpOrigin_total_time_other ht Origin.GOOGLE Origin.BAIDU _ (by decide),
      updateHttpOrigin_total_time_self hres hdns htt hpos,
      updateHttpOrigin_total_time_other ht Origin.ALIYUN Origin.BAIDU _ (by decide)]
  | GOOGLE =>
    rw [updateHttpOrigin_total_time_self hres hdns htt hpos,
      updateHttpOrigin_total_time_other ht Origin.BAIDU Origin.GOOGLE _ (by decide),
      updateHttpOrigin_total_time_other ht Origin.ALIYUN Origin.GOOGLE _ (by decide)]

/-- C8 (amended): for every test result with status `ok` processed by
`save_history` (one `saveOne` step of the fold `saveHistory`), the stored
record for the result's IP has `update_count` incremented by exactly one
(so it never decreases) and `last_update` set to the cycle timestamp; other
IPs' records are untouched; every available line test present exactly once
folds its latency as `new*0.7 + old*0.3` against the prior record (the bare
value on first observation, by `emaFold`); and an origin ttfb/total_time
value is folded the same way provided the overall HTTP test is available,
the origin's result is available, and the observed value is strictly
positive — the source skips observed values `≤ 0` and skips all origins
when the overall HTTP test is unavailable. -/
theorem c8_history_ema_update (now : ℤ) (hist : String → Option HistoryRecord)
    (res : TestRes) (hok : res.status = Status.ok) :
    ∃ r2, saveOne now hist res res.ip = some r2
      ∧ r2.update_count = ((hist res.ip).getD (initRecord now)).update_count + 1
      ∧ r2.last_update = now
      ∧ (∀ ip2, ip2 ≠ res.ip → saveOne now hist res ip2 = hist ip2)
      ∧ (∀ isp t lv, (isp, t) ∈ res.tests →
          res.tests.countP (fun p => decide (p.1 = isp)) = 1 →
          t.available = true → t.latency = some lv →
          r2.latency isp.toLine =
            some (emaFold lv
              (((hist res.ip).getD (initRecord now)).latency isp.toLine)))
      ∧ (∀ ht o dns tv, res.http_test = some ht → ht.available = true →
          ht.results o = some dns → dns.available = true → dns.ttfb = some tv →
          0 < tv →
          r2.ttfb o =
            some (emaFold tv (((hist res.ip).getD (initRecord now)).ttfb o)))
      ∧ (∀ ht o dns tv, res.http_test = some ht → ht.available = true →
          ht.results o = some dns → dns.available = true →
          dns.total_time = some tv → 0 < tv →
          r2.total_time o =
            some (emaFold tv
              (((hist res.ip).getD (initRecord now)).total_time o))) := by
  have hguard : ¬ res.status ≠ Status.ok := by simp [hok]
  refine ⟨saveRecord now hist res, ?_, ?_, ?_, ?_, ?_, ?_, ?_⟩
  · unfold saveOne
    rw [if_neg hguard]
    exact Function.update_same _ _ _
  · unfold saveRecord
    dsimp only
    rw [saveHttpFold_update_count, updateLatencies_update_count]
  · rfl
  · intro ip2 hip2
    unfold saveOne
    rw [if_neg hguard]
    exact Function.update_noteq hip2 _ _
  · intro isp t lv hmem hcount havail hlat
    unfold saveRecord
    dsimp only
    rw [congrFun (saveHttpFold_latency res.http_test _) isp.toLine]
    exact updateLatencies_at_key res.tests _ isp t lv hmem hcount havail hlat
  · intro ht o dns tv hhttp havail hres2 hdns httfb hpos
    unfold saveRecord
    dsimp only
    rw [hhttp]
    rw [saveHttpFold_ttfb_self havail hres2 hdns httfb hpos]
    rw [congrFun (updateLatencies_ttfb res.tests _) o]
  · intro ht o dns tv hhttp havail hres2 hdns htt hpos
    unfold saveRecord
    dsimp only
    rw [hhttp]
    rw [saveHttpFold_total_time_self havail hres2 hdns htt hpos]
    rw [congrFun (updateLatencies_total_time res.tests _) o]

def c8dns : DnsResult := { available := true, ttfb := some 0, total_time := some 0 }

def c8ht : HttpTest :=
  { available := true
    results := fun o => if o = Origin.ALIYUN then some c8dns else none }

def c8res : TestRes :=
  { ip := "1.1.1.1", status := Status.ok, tests := [], http_test := some c8ht }

def c8oldRec : HistoryRecord where
  latency := fun _ => none
  ttfb := fun o => if o = Origin.ALIYUN then some 100 else none
  total_time := fun _ => none
  dns_performance := fun _ => none
  update_count := 1
  last_update := 0

def c8hist : String → Option HistoryRecord := fun ip =>
  if ip = "1.1.1.1" then some c8oldRec else none

/-- C8 counterexample: a status-`ok` result whose available HTTP test
carries an available ALIYUN origin with observed `ttfb = 0`: the claim
demands the fold `0*0.7 + 100*0.3 = 30`, but `save_history` skips
non-positive observed values and leaves the stored EMA at 100.  The claim
as stated (every observed (ip, origin) value is folded) is false on the
code. -/
theorem c8_history_ema_update_counterexample :
    c8res.status = Status.ok
  ∧ c8res.http_test = some c8ht
  ∧ c8ht.available = true
  ∧ c8ht.results Origin.ALIYUN = some c8dns
  ∧ c8dns.available = true
  ∧ c8dns.ttfb = some 0
  ∧ (saveOne 0 c8hist c8res "1.1.1.1").map (fun r => r.ttfb Origin.ALIYUN) =
      some (some 100)
  ∧ emaFold 0 (some 100) = 30 := by
  refine ⟨rfl, rfl, rfl, by with_unfolding_all rfl, rfl, rfl, ?_, ?_⟩
  · with_unfolding_all rfl
  · with_unfolding_all rfl

def c8wrec : HistoryRecord where
  latency := fun l => if l = Line.TELECOM then some 100 else none
  ttfb := fun _ => none
  total_time := fun _ => none
  dns_performance := fun _ => none
  update_count := 2
  last_update := 0

def c8whist : String → Option HistoryRecord := fun ip =>
  if ip = "2.2.2.2" then some c8wrec else none

def c8wtest : PingTest :=
  { available := true, latency := some 30, loss := some 0, stability := none,
    latency_variance := none, node_id := some "1227" }

def c8wres : TestRes :=
  { ip := "2.2.2.2", status := Status.ok,
    tests := [(ISP.TELECOM, c8wtest)], http_test := none }

/-- C8 witness: the amended theorem applied to a concrete cycle: the stored
TELECOM latency EMA becomes `30*0.7 + 100*0.3 = 51` and `update_count`
rises from 2 to 3. -/
theorem c8_history_ema_update_witness :
    ∃ r2, saveOne 5 c8whist c8wres c8wres.ip = some r2
      ∧ r2.update_count = 3 ∧ r2.last_update = 5
      ∧ r2.latency Line.TELECOM = some 51 := by
  obtain ⟨r2, h1, h2, h3, _, hlat, _, _⟩ :=
    c8_history_ema_update 5 c8whist c8wres rfl
  refine ⟨r2, h1, ?_, h3, ?_⟩
  · rw [h2]; with_unfolding_all rfl
  · have hl := hlat ISP.TELECOM c8wtest 30 (by with_unfolding_all decide)
      (by with_unfolding_all rfl) rfl rfl
    show r2.latency ISP.TELECOM.toLine = some 51
    rw [hl]
    with_unfolding_all rfl

/-! ### Claim C6: the evaluator qualification gate -/

theorem tierScore100_nonneg (v : Option ℚ) (thr : ℚ) : 0 ≤ tierScore100 v thr := by
  unfold tierScore100
  cases v
  · exact le_refl 0
  · exact le_max_left 0 _

theorem httpScore_nonneg (cfg : EvalConfig) (http : Option HttpTest) (isp : Line) :
    0 ≤ httpScore cfg http isp := by
  unfold httpScore
  cases http with
  | none => exact le_refl 0
  | some ht =>
    dsimp only
    split_ifs
    · exact le_refl 0
    · cases chooseHttpResult ht isp with
      | none => exact le_refl 0
      | some tr =>
        refine add_nonneg (mul_nonneg (tierScore100_nonneg _ _) (by norm_num))
          (mul_nonneg (tierScore100_nonneg _ _) (by norm_num))

theorem pingLineScore_nonneg (cfg : EvalConfig) (isp : ISP) (t : PingTest) :
    0 ≤ pingLineScore cfg isp t := by
  unfold pingLineScore
  dsimp only
  refine add_nonneg (add_nonneg ?_ ?_) ?_
  · cases t.latency
    · norm_num
    · exact mul_nonneg (le_max_left 0 _) (by norm_num)
  · exact mul_nonneg (le_max_left 0 _) (by norm_num)
  · exact mul_nonneg (le_max_left 0 _) (by norm_num)

theorem pingScoresMap_nonneg (cfg : EvalConfig) :
    ∀ (tests : List (ISP × PingTest)) (acc : List (ISP × ℚ)),
      (∀ p ∈ acc, (0:ℚ) ≤ p.2) →
      ∀ p ∈ tests.foldl
          (fun acc p =>
            if p.2.available then dinsert p.1 (pingLineScore cfg p.1 p.2) acc
            else acc) acc,
        (0:ℚ) ≤ p.2 := by
  intro tests
  induction tests with
  | nil => intro acc hacc p hp; exact hacc p hp
  | cons q tests ih =>
    intro acc hacc p hp
    simp only [List.foldl_cons] at hp
    by_cases hq : q.2.available = true
    · rw [if_pos hq] at hp
      exact ih _ (dinsert_forall q.1 _ acc hacc (pingLineScore_nonneg cfg q.1 q.2)) p hp
    · rw [if_neg hq] at hp
      exact ih _ hacc p hp

theorem ispWeight_nonneg (i : ISP) : 0 ≤ ispWeight i := by
  cases i <;> norm_num [ispWeight]

theorem penalties_nonneg (tests : List (ISP × PingTest)) (http : Option HttpTest) :
    0 ≤ penalties tests http := by
  unfold penalties
  dsimp only
  refine mul_nonneg (mul_nonneg ?_ ?_) ?_
  · split_ifs <;> norm_num
  · split_ifs with hf
    · have hle : ([ISP.TELECOM, ISP.UNICOM, ISP.MOBILE].filter fun i =>
          !((lookupISP tests i).map (fun t => t.available)).getD false).length ≤ 3 :=
        List.length_filter_le _ _
      have hle2 : (([ISP.TELECOM, ISP.UNICOM, ISP.MOBILE].filter fun i =>
          !((lookupISP tests i).map (fun t => t.available)).getD false).length : ℚ) ≤ 3 := by
        exact_mod_cast hle
      linarith
    · norm_num
  · exact pow_nonneg (by norm_num) _

theorem calculateScore_nonneg (cfg : EvalConfig) (res : TestRes) (isp : Line) :
    0 ≤ calculateScore cfg res isp := by
  unfold calculateScore
  dsimp only
  refine mul_nonneg (add_nonneg (mul_nonneg ?_ (by norm_num))
    (mul_nonneg (httpScore_nonneg cfg res.http_test isp) (by norm_num)))
    (penalties_nonneg res.tests res.http_test)
  refine List.sum_nonneg ?_
  intro x hx
  obtain ⟨p, hp, rfl⟩ := List.mem_map.mp hx
  exact mul_nonneg (pingScoresMap_nonneg cfg res.tests [] (by simp) p hp)
    (ispWeight_nonneg p.1)

theorem ispEmit_spec {cfg : EvalConfig} {res : TestRes} {p : ISP × PingTest}
    {q : ISP × EvalEntry} (h : ispEmit cfg res p = some q) :
    q.1 = p.1 ∧ q.2.latency < cfg.latency_thresholds p.1.toLine ∧
    q.2.http_score = httpScore cfg res.http_test p.1.toLine ∧
    0 < q.2.http_score ∧
    q.2.score = calculateScore cfg res p.1.toLine := by
  unfold ispEmit at h
  by_cases h1 : p.2.available = false
  · rw [if_pos h1] at h; cases h
  · rw [if_neg h1] at h
    cases hlv : p.2.latency with
    | none => rw [hlv] at h; cases h
    | some lv =>
      rw [hlv] at h
      dsimp only at h
      by_cases h2 : lv < cfg.latency_thresholds p.1.toLine
      · rw [if_pos h2] at h
        by_cases h3 : 0 < httpScore cfg res.http_test p.1.toLine
        · rw [if_pos h3] at h
          have hq := (Option.some.injEq _ _).mp h
          rw [← hq]
          exact ⟨rfl, h2, rfl, h3, rfl⟩
        · rw [if_neg h3] at h; cases h
      · rw [if_neg h2] at h; cases h

theorem sumLatencies_ok :
    ∀ (ts : List PingTest) (s : ℚ), sumLatencies ts = Except.ok s →
      s = (ts.filterMap fun t => t.latency).sum ∧
        ∀ t ∈ ts, t.latency.isSome = true := by
  intro ts
  induction ts with
  | nil =>
    intro s h
    have := except_pure_eq_ok h
    exact ⟨by rw [← this]; rfl, by simp⟩
  | cons t ts ih =>
    intro s h
    unfold sumLatencies at h
    cases hl : t.latency with
    | none => rw [hl] at h; cases h
    | some l =>
      rw [hl] at h
      obtain ⟨s2, hs2, hpure⟩ := except_bind_ok h
      obtain ⟨hsum, hall⟩ := ih s2 hs2
      have hval := except_pure_eq_ok hpure
      constructor
      · rw [← hval, hsum, List.filterMap_cons, hl]
        rw [List.sum_cons]
      · intro t2 ht2
        rcases List.mem_cons.mp ht2 with rfl | ht3
        · rw [hl]; rfl
        · exact hall t2 ht3

theorem defaultEmit_spec {cfg : EvalConfig} {res : TestRes} {ds : List EvalEntry}
    (h : defaultEmit cfg res = Except.ok ds) :
    ∀ e ∈ ds,
      availTests res.tests ≠ [] ∧
      e.latency = ((availTests res.tests).filterMap fun t => t.latency).sum /
        ((availTests res.tests).length : ℚ) ∧
      e.latency < cfg.latency_thresholds Line.DEFAULT ∧
      e.http_score = httpScore cfg res.http_test Line.DEFAULT ∧
      0 < e.http_score ∧
      e.score = calculateScore cfg res Line.DEFAULT := by
  unfold defaultEmit at h
  by_cases hv : availTests res.tests = []
  · rw [if_pos hv] at h
    rw [← except_pure_eq_ok h]
    intro e he
    cases he
  · rw [if_neg hv] at h
    obtain ⟨latSum, hls, h⟩ := except_bind_ok h
    obtain ⟨hsum, _⟩ := sumLatencies_ok _ _ hls
    dsimp only at h
    by_cases h2 : latSum / ((availTests res.tests).length : ℚ) <
        cfg.latency_thresholds Line.DEFAULT
    · rw [if_pos h2] at h
      by_cases h3 : 0 < httpScore cfg res.http_test Line.DEFAULT
      · rw [if_pos h3] at h
        rw [← except_pure_eq_ok h]
        intro e he
        rcases List.mem_singleton.mp he with rfl
        refine ⟨hv, by rw [← hsum], h2, rfl, h3, rfl⟩
      · rw [if_neg h3] at h
        rw [← except_pure_eq_ok h]
        intro e he
        cases he
    · rw [if_neg h2] at h
      rw [← except_pure_eq_ok h]
      intro e he
      cases he

theorem ISP.toLine_ne_DEFAULT (i : ISP) : i.toLine ≠ Line.DEFAULT := by
  cases i <;> decide

theorem evalResult_spec {cfg : EvalConfig} {res : TestRes}
    {f : Line → List EvalEntry} (h : evalResult cfg res = Except.ok f) :
    ∀ l e, e ∈ f l →
      0 < e.http_score ∧ 0 ≤ e.score ∧ e.latency < cfg.latency_thresholds l ∧
      (l = Line.DEFAULT →
        availTests res.tests ≠ [] ∧
        e.latency = ((availTests res.tests).filterMap fun t => t.latency).sum /
          ((availTests res.tests).length : ℚ)) := by
  unfold evalResult at h
  obtain ⟨ds, hds, hpure⟩ := except_bind_ok h
  have hf := except_pure_eq_ok hpure
  intro l e he
  rw [← hf] at he
  dsimp only at he
  rcases List.mem_append.mp he with hin | hin
  · obtain ⟨q, hq, rfl⟩ := List.mem_map.mp hin
    obtain ⟨hq1, hq2⟩ := List.mem_filter.mp hq
    obtain ⟨p, _, hemit⟩ := List.mem_filterMap.mp hq1
    have hline : q.1.toLine = l := of_decide_eq_true hq2
    obtain ⟨hqp, hlat, hhs, hpos, hscore⟩ := ispEmit_spec hemit
    have hlinep : p.1.toLine = l := by rw [← hline, hqp]
    refine ⟨hpos, ?_, by rw [← hlinep]; exact hlat, ?_⟩
    · rw [hscore]
      exact calculateScore_nonneg cfg res p.1.toLine
    · intro hld
      exfalso
      exact ISP.toLine_ne_DEFAULT q.1 (by rw [hline, hld])
  · by_cases hld : l = Line.DEFAULT
    · rw [if_pos hld] at hin
      obtain ⟨hne, hlat, hthr, hhs, hpos, hscore⟩ := defaultEmit_spec hds e hin
      subst hld
      refine ⟨hpos, ?_, hthr, fun _ => ⟨hne, hlat⟩⟩
      rw [hscore]
      exact calculateScore_nonneg cfg res Line.DEFAULT
    · rw [if_neg hld] at hin
      cases hin

theorem evalBatch_mem :
    ∀ (results : List TestRes) (cfg : EvalConfig) (acc : Line → List EvalEntry)
      (ev : Line → List EvalEntry),
      (results.foldlM
        (fun acc res => do
          let f ← evalResult cfg res
          pure fun l => acc l ++ f l) acc) = Except.ok ev →
      ∀ l e, e ∈ ev l → e ∈ acc l ∨
        ∃ res ∈ results, ∃ f, evalResult cfg res = Except.ok f ∧ e ∈ f l := by
  intro results
  induction results with
  | nil =>
    intro cfg acc ev h l e he
    rw [← except_pure_eq_ok h] at he
    exact Or.inl he
  | cons res results ih =>
    intro cfg acc ev h l e he
    rw [List.foldlM_cons] at h
    obtain ⟨acc2, hacc2, hrest⟩ := except_bind_ok h
    obtain ⟨f, hf, hpure⟩ := except_bind_ok hacc2
    rw [← except_pure_eq_ok hpure] at hrest
    rcases ih cfg _ ev hrest l e he with hin | ⟨res2, hres2, f2, hf2, he2⟩
    · rcases List.mem_append.mp hin with h2 | h2
      · exact Or.inl h2
      · exact Or.inr ⟨res, List.mem_cons_self _ _, f, hf, h2⟩
    · exact Or.inr ⟨res2, List.mem_cons_of_mem _ hres2, f2, hf2, he2⟩

/-- C6: every candidate `evaluate_batch` emits for a line has latency
strictly below that line's threshold (for `DEFAULT`, the emitted latency is
the mean of the result's available per-line latencies and lies below the
`DEFAULT` threshold), a strictly positive line-appropriate HTTP score, and
a total score that is never negative (the penalty multipliers cannot push
it below 0). -/
theorem c6_evaluator_gate (cfg : EvalConfig) (results : List TestRes)
    (ev : Line → List EvalEntry) (h : evaluateBatch cfg results = Except.ok ev)
    (l : Line) :
    ∀ e ∈ ev l,
      0 < e.http_score ∧ 0 ≤ e.score ∧ e.latency < cfg.latency_thresholds l ∧
      (l = Line.DEFAULT → ∃ res ∈ results,
        availTests res.tests ≠ [] ∧
        e.latency = ((availTests res.tests).filterMap fun t => t.latency).sum /
          ((availTests res.tests).length : ℚ)) := by
  intro e he
  unfold evaluateBatch at h
  rcases evalBatch_mem results cfg _ ev h l e he with hin | ⟨res, hres, f, hf, hef⟩
  · exact absurd hin (List.not_mem_nil e)
  · obtain ⟨h1, h2, h3, h4⟩ := evalResult_spec hf l e hef
    exact ⟨h1, h2, h3, fun hld => ⟨res, hres, h4 hld⟩⟩

def c6cfg : EvalConfig :=
  { latency_thresholds := fun l =>
      match l with
      | Line.OVERSEAS => 150
      | Line.DEFAULT => 150
      | _ => 100
    http_ttfb_threshold := 200
    http_total_time_threshold := 1000 }

def c6test : PingTest :=
  { available := true, latency := some 80, loss := some 0, stability := none,
    latency_variance := none, node_id := some "1227" }

def c6http : HttpTest :=
  { available := true
    results := fun o =>
      if o = Origin.ALIYUN then
        some { available := true, ttfb := some 50, total_time := some 300 }
      else none }

def c6res : TestRes :=
  { ip := "1.2.3.4", status := Status.ok,
    tests := [(ISP.TELECOM, c6test)], http_test := some c6http }

def c6ev : Line → List EvalEntry :=
  match evaluateBatch c6cfg [c6res] with
  | Except.ok f => f
  | Except.error _ => fun _ => []

def c6e : EvalEntry :=
  (c6ev Line.TELECOM).getD 0
    { ip := "", score := 0, latency := 0, loss := 0, http_score := 0, node_id := none }

set_option maxRecDepth 8000 in
/-- C6 witness: the spec's scenario IP (ping 80ms under the 100ms TELECOM
threshold, HTTP ttfb 50 / total 300 under thresholds 200/1000) is emitted
for TELECOM, and the gate theorem applies to it. -/
theorem c6_evaluator_gate_witness :
    evaluateBatch c6cfg [c6res] = Except.ok c6ev
  ∧ c6e ∈ c6ev Line.TELECOM
  ∧ 0 < c6e.http_score ∧ 0 ≤ c6e.score
  ∧ c6e.latency < c6cfg.latency_thresholds Line.TELECOM := by
  have h : evaluateBatch c6cfg [c6res] = Except.ok c6ev := by
    with_unfolding_all rfl
  have hm : c6e ∈ c6ev Line.TELECOM := by with_unfolding_all decide
  have h2 := c6_evaluator_gate c6cfg [c6res] c6ev h Line.TELECOM c6e hm
  exact ⟨h, hm, h2.1, h2.2.1, h2.2.2.1⟩

/-! ### Claim C10: overseas-mode gating of `get_test_nodes` -/

theorem randomChoice_mem (l : List String) (pick : ℕ) (h : l ≠ []) :
    randomChoice l pick ∈ l := by
  unfold randomChoice
  have hlen : 0 < l.length := List.length_pos.mpr h
  have hmod : pick % l.length < l.length := Nat.mod_lt pick hlen
  rw [List.getD_eq_getElem l "" hmod]
  exact List.getElem_mem hmod

theorem testIp_no_overseas (ip : String) (pick : ISP → ℕ)
    (probe : String → Option PingProbe) (ht : HttpTest) :
    ∀ p ∈ (testIp ip (getTestNodes false pick) probe ht).tests,
      p.1 ≠ ISP.OVERSEAS := by
  intro p hp
  unfold testIp at hp
  dsimp only at hp
  obtain ⟨isp, _, hmatch⟩ := List.mem_filterMap.mp hp
  cases hb : bestResult ((getTestNodes false pick isp).filterMap probe) with
  | none => rw [hb] at hmatch; cases hmatch
  | some b =>
    rw [hb] at hmatch
    have hpq : (isp, b.toPingTest) = p := (Option.some.injEq _ _).mp hmatch
    have hp1 : p.1 = isp := by rw [← hpq]
    intro hcontra
    have hisp : isp = ISP.OVERSEAS := by rw [← hp1, hcontra]
    rw [hisp] at hb
    have hempty : getTestNodes false pick ISP.OVERSEAS = [] := rfl
    rw [hempty] at hb
    cases hb

theorem evalResult_overseas_empty {cfg : EvalConfig} {res : TestRes}
    {f : Line → List EvalEntry}
    (hno : ∀ p ∈ res.tests, p.1 ≠ ISP.OVERSEAS)
    (h : evalResult cfg res = Except.ok f) :
    f Line.OVERSEAS = [] := by
  unfold evalResult at h
  obtain ⟨ds, _, hpure⟩ := except_bind_ok h
  rw [← except_pure_eq_ok hpure]
  dsimp only
  rw [if_neg (by decide : ¬ Line.OVERSEAS = Line.DEFAULT), List.append_nil]
  rw [List.map_eq_nil_iff]
  rw [List.filter_eq_nil_iff]
  intro q hq
  obtain ⟨p, hp, hemit⟩ := List.mem_filterMap.mp hq
  have hqp := (ispEmit_spec hemit).1
  simp only [decide_eq_true_eq]
  intro hline
  have hq1 : q.1 = ISP.OVERSEAS := ISP.toLine_inj hline
  exact hno p hp (by rw [← hqp]; exact hq1)

theorem evaluateBatch_overseas_empty {cfg : EvalConfig} {results : List TestRes}
    {ev : Line → List EvalEntry}
    (hno : ∀ res ∈ results, ∀ p ∈ res.tests, p.1 ≠ ISP.OVERSEAS)
    (h : evaluateBatch cfg results = Except.ok ev) :
    ev Line.OVERSEAS = [] := by
  rw [List.eq_nil_iff_forall_not_mem]
  intro e he
  unfold evaluateBatch at h
  rcases evalBatch_mem results cfg _ ev h Line.OVERSEAS e he with
    hin | ⟨res, hres, f, hf, hef⟩
  · exact List.not_mem_nil e hin
  · rw [evalResult_overseas_empty (hno res hres) hf] at hef
    exact List.not_mem_nil e hef

/-- C10: on every call, `get_test_nodes` selects exactly one node from the
catalog for each of TELECOM, UNICOM and MOBILE; it includes an OVERSEAS
node exactly when `test_config.overseas_mode` is set; with the flag unset a
`test_ip` result never contains an OVERSEAS measurement, and consequently
`evaluate_batch` emits no fresh OVERSEAS candidates from such results. -/
theorem c10_overseas_mode :
    (∀ (mode : Bool) (pick : ISP → ℕ) (isp : ISP), isp ≠ ISP.OVERSEAS →
      (getTestNodes mode pick isp).length = 1 ∧
        ∀ n ∈ getTestNodes mode pick isp, n ∈ NODE_IDS isp)
  ∧ (∀ (mode : Bool) (pick : ISP → ℕ),
      getTestNodes mode pick ISP.OVERSEAS ≠ [] ↔ mode = true)
  ∧ (∀ (ip : String) (pick : ISP → ℕ) (probe : String → Option PingProbe)
      (ht : HttpTest),
      lookupISP (testIp ip (getTestNodes false pick) probe ht).tests
        ISP.OVERSEAS = none)
  ∧ (∀ (cfg : EvalConfig) (results : List TestRes) (ev : Line → List EvalEntry),
      (∀ res ∈ results, ∃ ip pick probe ht2,
        res = testIp ip (getTestNodes false pick) probe ht2) →
      evaluateBatch cfg results = Except.ok ev →
      ev Line.OVERSEAS = []) := by
  refine ⟨?_, ?_, ?_, ?_⟩
  · intro mode pick isp hisp
    cases isp with
    | OVERSEAS => exact absurd rfl hisp
    | TELECOM =>
      exact ⟨rfl, fun n hn => by
        rw [List.mem_singleton.mp hn]
        exact randomChoice_mem _ _ (by decide)⟩
    | UNICOM =>
      exact ⟨rfl, fun n hn => by
        rw [List.mem_singleton.mp hn]
        exact randomChoice_mem _ _ (by decide)⟩
    | MOBILE =>
      exact ⟨rfl, fun n hn => by
        rw [List.mem_singleton.mp hn]
        exact randomChoice_mem _ _ (by decide)⟩
  · intro mode pick
    cases mode <;> simp [getTestNodes]
  · intro ip pick probe ht
    unfold lookupISP
    rw [List.find?_eq_none.mpr]
    · rfl
    · intro p hp
      simp only [decide_eq_true_eq]
      exact testIp_no_overseas ip pick probe ht p hp
  · intro cfg results ev hall h
    refine evaluateBatch_overseas_empty ?_ h
    intro res hres
    obtain ⟨ip, pick, probe, ht2, rfl⟩ := hall res hres
    exact testIp_no_overseas ip pick probe ht2

def c10cfg : EvalConfig :=
  { latency_thresholds := fun _ => 100
    http_ttfb_threshold := 200
    http_total_time_threshold := 1000 }

def c10http : HttpTest := { available := false, results := fun _ => none }

def c10res : TestRes :=
  testIp "1.2.3.4" (getTestNodes false fun _ => 0) (fun _ => none) c10http

def c10ev : Line → List EvalEntry :=
  match evaluateBatch c10cfg [c10res] with
  | Except.ok f => f
  | Except.error _ => fun _ => []

/-- C10 witness: a concrete cycle with overseas mode off produces a tester
result with no OVERSEAS measurement, and the evaluation of that cycle emits
no OVERSEAS candidate. -/
theorem c10_overseas_mode_witness :
    evaluateBatch c10cfg [c10res] = Except.ok c10ev
  ∧ c10ev Line.OVERSEAS = [] := by
  have h : evaluateBatch c10cfg [c10res] = Except.ok c10ev := by
    with_unfolding_all rfl
  refine ⟨h, c10_overseas_mode.2.2.2 c10cfg [c10res] c10ev ?_ h⟩
  intro res hres
  rw [List.mem_singleton] at hres
  exact ⟨"1.2.3.4", fun _ => 0, fun _ => none, c10http, hres⟩

end CFIP
